import Mathlib

/-!
Shallow embedding of `psautohint/ufoFont.py`: the GLIF/bez outline codec,
the hint-mask assembler, the content-hash builder and the incremental
processing cache.  Coordinates are modelled as rationals (`ℚ`), Python
exceptions as an explicit error type, Python dicts as association lists,
and the newline-joined / whitespace-split bez string as a token list
(`BezTok`), on which joining and re-tokenising is the identity.
-/

namespace UFO

/-- Python exception kinds raised by the embedded code.  Messages are not
modelled. -/
inductive PyErr
  | ufoParseError
  | bezParseError
  | keyError
  | indexError
  | valueError
  | zeroDivisionError
  | attributeError
  deriving DecidableEq, Repr

deriving instance DecidableEq for Except

/-- Point kinds of the GLIF structured format.  `offcurve` models a point
element with no `type` attribute. -/
inductive PointType
  | move
  | line
  | curve
  | offcurve
  | qccurve
  deriving DecidableEq, Repr

/-- A GLIF point: coordinates plus kind. -/
structure Point where
  x : ℚ
  y : ℚ
  ptype : PointType
  deriving DecidableEq, Repr

/-- One element of a GLIF outline: either a contour (list of points) or a
component reference with the six optional transform attributes, in the
source's tag order xScale, xyScale, yxScale, yScale, xOffset, yOffset. -/
inductive OutlineElem
  | contour (pts : List Point)
  | component (base : String)
      (xScale xyScale yxScale yScale xOffset yOffset : Option ℚ)
  deriving DecidableEq, Repr

/-- A GLIF outline element body: an ordered list of contours and
components. -/
abbrev Outline := List OutlineElem

/-- Resolution of component glyph names, standing for the
`getComponentOutline` / component-file lookups: `Except` carries the
`UFOParseError` raised for a missing component, `none` models a glyph
file without an `outline` element. -/
abbrev Resolver := String → Except PyErr (Option Outline)

/-- Python `round` (banker's rounding, round half to even) on an exact
rational, phrased on the numerator and denominator: `f` is the floor,
`rem / den` the fractional part, compared against one half. -/
def pyRound (q : ℚ) : ℤ :=
  let f := q.num.fdiv q.den
  let rem := q.num - f * q.den
  if 2 * rem < (q.den : ℤ) then f
  else if (q.den : ℤ) < 2 * rem then f + 1
  else if f % 2 = 0 then f else f + 1

/-- UFOTransform: the six affine coefficients in the order of
`transformFactors` (xScale, xyScale, yxScale, yScale, xOffset, yOffset)
plus the two tracking booleans. -/
structure UFOTransform where
  t0 : ℚ
  t1 : ℚ
  t2 : ℚ
  t3 : ℚ
  t4 : ℚ
  t5 : ℚ
  isDefault : Bool
  isOffsetOnly : Bool
  deriving DecidableEq, Repr

namespace UFOTransform

/-- UFOTransform.__init__ from component attributes: missing scales
default to 1, missing offsets to 0; `hasScale` records any of the four
linear coefficients differing from its default, `hasOffset` a nonzero
offset. -/
def ofAttrs (xScale xyScale yxScale yScale xOffset yOffset : Option ℚ) :
    UFOTransform :=
  let v0 := xScale.getD 1
  let v1 := xyScale.getD 0
  let v2 := yxScale.getD 0
  let v3 := yScale.getD 1
  let v4 := xOffset.getD 0
  let v5 := yOffset.getD 0
  let hasScale := v0 ≠ 1 ∨ v1 ≠ 0 ∨ v2 ≠ 0 ∨ v3 ≠ 1
  let hasOffset := v4 ≠ 0 ∨ v5 ≠ 0
  { t0 := v0, t1 := v1, t2 := v2, t3 := v3, t4 := v4, t5 := v5
    isDefault := !(decide hasScale || decide hasOffset)
    isOffsetOnly := !decide hasScale }

/-- UFOTransform.concat: composes `cur` (self) with `prev` (the argument
transform), mutating self in the source; here returning the new value.
`none` and a default argument are no-ops; an offset-only argument adds
offsets; otherwise the full affine composition runs and `isOffsetOnly`
becomes the conjunction of both flags. -/
def concat (cur : UFOTransform) (prev : Option UFOTransform) : UFOTransform :=
  match prev with
  | none => cur
  | some p =>
    if p.isDefault then cur
    else if p.isOffsetOnly then
      { cur with t4 := cur.t4 + p.t4, t5 := cur.t5 + p.t5, isDefault := false }
    else
      { t0 := cur.t0 * p.t0 + cur.t1 * p.t2
        t1 := cur.t0 * p.t1 + cur.t1 * p.t3
        t2 := cur.t2 * p.t0 + cur.t3 * p.t2
        t3 := cur.t2 * p.t1 + cur.t3 * p.t3
        t4 := cur.t4 * p.t0 + cur.t5 * p.t2 + p.t4
        t5 := cur.t4 * p.t1 + cur.t5 * p.t3 + p.t5
        isDefault := false
        isOffsetOnly := cur.isOffsetOnly && p.isOffsetOnly }

/-- UFOTransform.apply: the offset-only fast path adds offsets, the
general path computes the full affine map. -/
def apply (t : UFOTransform) (x y : ℚ) : ℚ × ℚ :=
  if t.isOffsetOnly then (x + t.t4, y + t.t5)
  else (x * t.t0 + y * t.t2 + t.t4, x * t.t1 + y * t.t3 + t.t5)

/-- The 2x2 linear part of a transform is the identity matrix. -/
def linearIsIdentity (t : UFOTransform) : Prop :=
  t.t0 = 1 ∧ t.t1 = 0 ∧ t.t2 = 0 ∧ t.t3 = 1

instance (t : UFOTransform) : Decidable t.linearIsIdentity := by
  unfold linearIsIdentity; infer_instance

end UFOTransform

/-- Transforms reachable in the source: built by `UFOTransform.__init__`
from component attributes, then composed by `concat` with other reachable
transforms (the encode direction concatenates a fresh attribute transform
with the inherited one). -/
inductive ReachableT : UFOTransform → Prop
  | init (xs xys yxs ys xo yo : Option ℚ) :
      ReachableT (UFOTransform.ofAttrs xs xys yxs ys xo yo)
  | concat (t u : UFOTransform) : ReachableT t → ReachableT u →
      ReachableT (t.concat (some u))

/-! ## Incremental cache (`UFOFontData.checkSkipGlyph`, `getGlyphID`) -/

/-- Tool name constant `kAutohintName`. -/
def kAutohintName : String := "autohint"

/-- A hash-map entry: `[srcHash, historyList]`. -/
abbrev HashEntry := String × List String

/-- Python dict assignment `m[k] = v` on an association list: replace the
existing binding in place, or append a new one at the end. -/
def dictSet : List (String × HashEntry) → String → HashEntry →
    List (String × HashEntry)
  | [], k, v => [(k, v)]
  | (a, b) :: tl, k, v =>
    if a = k then (k, v) :: tl else (a, b) :: dictSet tl k v

/-- The cache-relevant state of a `UFOFontData` instance.  The in-memory
`hashMap` starts empty and is populated from `diskHashMap` by
`readHashMap` on first use; `processedPaths` models
`processedLayerGlyphMap` (glyph name to processed-layer file path) and
`existingFiles` the set of paths for which `os.path.exists` is true.
`errorLog` collects `log.error` calls as
(glyph name, required tools, tool name) records. -/
structure CacheState where
  useHashMap : Bool
  useProcessedLayer : Bool
  requiredHistory : List String
  hashMap : List (String × HashEntry)
  diskHashMap : List (String × HashEntry)
  hashMapChanged : Bool
  deletedGlyph : Bool
  processedPaths : List (String × String)
  existingFiles : List String
  errorLog : List (String × List String × String)
  deriving DecidableEq, Repr

namespace CacheState

/-- UFOFontData.getGlyphProcessedPath: a path only when the
processed-layer glyph map is non-empty and contains the glyph. -/
def getGlyphProcessedPath (st : CacheState) (glyphName : String) :
    Option String :=
  if st.processedPaths ≠ [] then st.processedPaths.lookup glyphName
  else none

/-- Delete the processed-layer file at `path` if it exists (the
`os.path.exists`/`os.remove` pair); returns the new state and whether a
removal happened. -/
def removeIfExists (st : CacheState) (path : Option String) :
    CacheState × Bool :=
  match path with
  | some p =>
    if p ∈ st.existingFiles then
      ({ st with existingFiles := st.existingFiles.filter (fun q => q ≠ p) },
       true)
    else (st, false)
  | none => (st, false)

/-- The overwrite performed by `checkSkipGlyph` under the equal-hash
branch when the source layer is in use: reset the entry to
`(newHash, [autohint])`, mark the map changed, and remove any existing
processed-layer file (without touching `deletedGlyph`). -/
def sameHashReset (st : CacheState) (glyphName newSrcHash : String) :
    CacheState :=
  let st := { st with
    hashMapChanged := true
    hashMap := dictSet st.hashMap glyphName (newSrcHash, [kAutohintName]) }
  (st.removeIfExists (st.getGlyphProcessedPath glyphName)).1

/-- The overwrite performed by `checkSkipGlyph` under the changed-hash
branch: reset the entry to `(newHash, [autohint])`, mark the map
changed, remove any existing processed-layer file and set `deletedGlyph`
when a removal happened. -/
def hashDiffUpdate (st : CacheState) (glyphName newSrcHash : String) :
    CacheState :=
  let st := { st with
    hashMapChanged := true
    hashMap := dictSet st.hashMap glyphName (newSrcHash, [kAutohintName]) }
  let (st, removed) := st.removeIfExists (st.getGlyphProcessedPath glyphName)
  if removed then { st with deletedGlyph := true } else st

/-- The body of `UFOFontData.checkSkipGlyph` once the hash map has been
read in.  Returns the `skip` flag and the updated state. -/
def checkSkipLoaded (st : CacheState) (glyphName newSrcHash : String)
    (doAll : Bool) : Bool × CacheState :=
    let entry := st.hashMap.lookup glyphName
    let srcHash : Option String := entry.map (fun e => e.1)
    let historyList : List String := (entry.map (fun e => e.2)).getD []
    let inHistory := kAutohintName ∈ historyList
    if srcHash = some newSrcHash then
      let skip := inHistory && !doAll
      if skip then (true, st)
      else
        if !st.useProcessedLayer then
          (false, sameHashReset st glyphName newSrcHash)
        else
          if !inHistory then
            let m2 := dictSet st.hashMap glyphName
              (newSrcHash, historyList ++ [kAutohintName])
            (false, { st with hashMap := m2 })
          else (false, st)
    else
      let foundMatch : Bool :=
        if st.useProcessedLayer then
          if historyList.length > 0 then
            st.requiredHistory.any (fun p => p ∈ historyList)
          else false
        else false
      let st :=
        if foundMatch then
          { st with errorLog := st.errorLog ++
              [(glyphName, st.requiredHistory, kAutohintName)] }
        else st
      (foundMatch, hashDiffUpdate st glyphName newSrcHash)

/-- UFOFontData.checkSkipGlyph: no-op when the hash map is disabled;
otherwise the `readHashMap` call on an empty in-memory map (modelled by
loading `diskHashMap`) followed by the loaded body. -/
def checkSkipGlyph (st : CacheState) (glyphName newSrcHash : String)
    (doAll : Bool) : Bool × CacheState :=
  if !st.useHashMap then (false, st)
  else
    checkSkipLoaded
      (if st.hashMap.isEmpty then { st with hashMap := st.diskHashMap }
       else st) glyphName newSrcHash doAll

/-- The hash map `checkSkipGlyph` effectively consults: the in-memory map
once loaded, else the persisted one `readHashMap` would load. -/
def effMap (st : CacheState) : List (String × HashEntry) :=
  if st.hashMap.isEmpty then st.diskHashMap else st.hashMap

end CacheState

/-- UFOFontData.getGlyphID: a `dict` lookup in `orderMap` wrapped in a
handler that converts `IndexError` — and only `IndexError` — into
`UFOParseError`.  A missing key raises `KeyError`, which the handler
does not catch. -/
def getGlyphID (orderMap : List (String × ℕ)) (glyphName : String) :
    Except PyErr ℕ :=
  let attempt : Except PyErr ℕ :=
    match orderMap.lookup glyphName with
    | some gid => .ok gid
    | none => .error .keyError
  match attempt with
  | .error .indexError => .error .ufoParseError
  | r => r

/-! ## Outline codec, encode direction (`convertGlyphOutlineToBezString`)

The newline-joined bez string is modelled as a flat token list; joining
with whitespace and re-splitting on whitespace is the identity on these
tokens. -/

/-- One whitespace-delimited token of a bez string: a number or an
operator / keyword. -/
inductive BezTok
  | num (q : ℚ)
  | op (s : String)
  deriving DecidableEq, Repr

/-- Coordinate emission: unless decimal coordinates are allowed, the
coordinate is rounded with Python `round` to an integer.  (With decimals
allowed the source formats with three decimal places; the numeric token
is modelled exactly.) -/
def roundCoord (allowDecimals : Bool) (q : ℚ) : ℚ :=
  if allowDecimals then q else (pyRound q : ℚ)

/-- Apply the optional inherited transform to a coordinate pair. -/
def applyT (transform : Option UFOTransform) (x y : ℚ) : ℚ × ℚ :=
  match transform with
  | none => (x, y)
  | some t => t.apply x y

/-- The `"x y mt"` move-to tokens for a point, after transform and
optional rounding. -/
def mtToks (allowDecimals : Bool) (transform : Option UFOTransform)
    (p : Point) : List BezTok :=
  let (x, y) := applyT transform p.x p.y
  [.num (roundCoord allowDecimals x), .num (roundCoord allowDecimals y),
   .op "mt"]

/-- The per-point loop of the encoder (`for contourItem in outlineItem`):
off-curve points push their transformed coordinates on the argument
stack; `move`/`line` emit `mt`/`dt` and clear it; `curve` demands exactly
four stacked arguments and emits a six-argument `ct`; `qccurve` and any
unknown type raise `UFOParseError`.  Leftover stacked arguments at the
end of the contour are discarded. -/
def pointLoop (allowDecimals : Bool) (transform : Option UFOTransform) :
    List Point → List ℚ → Except PyErr (List BezTok)
  | [], _ => .ok []
  | p :: ps, argStack =>
    let (x0, y0) := applyT transform p.x p.y
    let x := roundCoord allowDecimals x0
    let y := roundCoord allowDecimals y0
    match p.ptype with
    | .offcurve => pointLoop allowDecimals transform ps (argStack ++ [x, y])
    | .move =>
        match pointLoop allowDecimals transform ps [] with
        | .error e => .error e
        | .ok rest => .ok ([BezTok.num x, .num y, .op "mt"] ++ rest)
    | .line =>
        match pointLoop allowDecimals transform ps [] with
        | .error e => .error e
        | .ok rest => .ok ([BezTok.num x, .num y, .op "dt"] ++ rest)
    | .curve =>
        match argStack with
        | [a, b, c, d] =>
          match pointLoop allowDecimals transform ps [] with
          | .error e => .error e
          | .ok rest =>
            .ok ([BezTok.num a, .num b, .num c, .num d, .num x, .num y,
                  .op "ct"] ++ rest)
        | _ => .error .ufoParseError
    | .qccurve => .error .ufoParseError

/-- Encode one contour.  The first point's kind selects the opening
strategy of the source: `curve`/`qccurve` rotate the first point to the
end and emit its move-to; `line` emits its move-to and drops it; a lone
`move` point drops the whole contour; `move` with more points falls
through to the loop unchanged; an off-curve first point dispatches on
the last point's kind (`line`: move-to there and drop it, `curve`:
move-to there and keep it, missing kind: `UFOParseError` from the
`KeyError`, `move`/`qccurve`: silently no move-to).  Each emitted contour
ends with `cp`. -/
def encodeContour (allowDecimals : Bool) (transform : Option UFOTransform)
    (pts : List Point) : Except PyErr (List BezTok) :=
  match pts with
  | [] => .ok []
  | first :: rest =>
    let setup : Except PyErr (Option (List BezTok × List Point)) :=
      match first.ptype with
      | .curve => .ok (some (mtToks allowDecimals transform first,
                             rest ++ [first]))
      | .qccurve => .ok (some (mtToks allowDecimals transform first,
                               rest ++ [first]))
      | .line => .ok (some (mtToks allowDecimals transform first, rest))
      | .move =>
          if rest.isEmpty then .ok none
          else .ok (some ([], first :: rest))
      | .offcurve =>
          let lastP := (first :: rest).getLast (by simp)
          match lastP.ptype with
          | .offcurve => .error .ufoParseError
          | .line => .ok (some (mtToks allowDecimals transform lastP,
                                (first :: rest).dropLast))
          | .curve => .ok (some (mtToks allowDecimals transform lastP,
                                 first :: rest))
          | .move => .ok (some ([], first :: rest))
          | .qccurve => .ok (some ([], first :: rest))
    match setup with
    | .error e => .error e
    | .ok none => .ok []
    | .ok (some (pre, iter)) =>
        match pointLoop allowDecimals transform iter [] with
        | .error e => .error e
        | .ok body => .ok (pre ++ body ++ [.op "cp"])

/-- The component branch of the encoder: build the attribute transform,
concatenate with the inherited one exactly as the source does (a default
attribute transform with no inherited transform stays `None`). -/
def componentTransform (newT : UFOTransform)
    (transform : Option UFOTransform) : Option UFOTransform :=
  if newT.isDefault then
    match transform with
    | some t => some (newT.concat (some t))
    | none => none
  else some (newT.concat transform)

/-- Iteration over the outline elements at one recursion level of the
encoder: contours encode in place, components resolve and hand their
outline to `compHandler` (the recursion into the next level).  An
unresolvable component propagates the resolver's error; a component
whose glyph has no outline element, or an empty one, is skipped (the
source's truthiness test). -/
def encodeList (resolve : Resolver) (allowDecimals : Bool)
    (compHandler : List OutlineElem → Option UFOTransform →
      Except PyErr (List BezTok)) :
    List OutlineElem → Option UFOTransform → Except PyErr (List BezTok)
  | [], _ => .ok []
  | .contour pts :: es, transform =>
    match encodeContour allowDecimals transform pts with
    | .error e => .error e
    | .ok toks =>
      match encodeList resolve allowDecimals compHandler es transform with
      | .error e => .error e
      | .ok rest => .ok (toks ++ rest)
  | .component base xs xys yxs ys xo yo :: es, transform =>
    let newT := UFOTransform.ofAttrs xs xys yxs ys xo yo
    let newTransform := componentTransform newT transform
    match resolve base with
    | .error e => .error e
    | .ok compOutline =>
      let sub : Except PyErr (List BezTok) :=
        match compOutline with
        | some (c :: cs) => compHandler (c :: cs) newTransform
        | _ => .ok []
      match sub with
      | .error e => .error e
      | .ok subToks =>
        match encodeList resolve allowDecimals compHandler es transform with
        | .error e => .error e
        | .ok rest => .ok (subToks ++ rest)

/-- Element iteration with `fuel` remaining component levels
(`fuel = 10 - level`): a component entered with no fuel left is the
recursive call at `level > 10` and raises `UFOParseError`. -/
def encodeElems (resolve : Resolver) (allowDecimals : Bool) :
    Nat → List OutlineElem → Option UFOTransform →
    Except PyErr (List BezTok)
  | 0 => encodeList resolve allowDecimals (fun _ _ => .error .ufoParseError)
  | fuel + 1 => encodeList resolve allowDecimals
      (fun sub tr => encodeElems resolve allowDecimals fuel sub tr)

/-- convertGlyphOutlineToBezString: raises `UFOParseError` when `level`
exceeds 10, otherwise encodes the outline's elements; a missing outline
element gives the empty stream. -/
def convertGlyphOutlineToBezString (resolve : Resolver)
    (allowDecimals : Bool) (outline : Option Outline)
    (transform : Option UFOTransform) (level : Nat) :
    Except PyErr (List BezTok) :=
  if level > 10 then .error .ufoParseError
  else
    match outline with
    | none => .ok []
    | some elems => encodeElems resolve allowDecimals (10 - level) elems transform

/-! ## Content hash builder (`UFOFontData.buildGlyphHashValue`)

Coordinate and transform attribute strings are modelled by a canonical
rendering of the rational value (integers without a decimal point,
matching the source's `str(int(value))` normalisation of integral
attribute strings). -/

/-- Canonical string rendering of a rational attribute or coordinate. -/
def qToken (q : ℚ) : String :=
  if q.den = 1 then toString q.num else toString q

/-- First character of the point `type` attribute, empty for an
off-curve point. -/
def hashPointTypeChar : PointType → String
  | .move => "m"
  | .line => "l"
  | .curve => "c"
  | .qccurve => "q"
  | .offcurve => ""

/-- Iteration of the hash builder over outline elements: contours with
fewer than two points are skipped; components contribute a
`base:<name>` token, their present transform attributes in tag order,
then the recursive token list produced by `compHandler` (which starts
with the component's `w<width>` token). -/
def hashList (resolve : Resolver)
    (compHandler : Option Outline → Except PyErr (List String)) :
    List OutlineElem → Except PyErr (List String)
  | [] => .ok []
  | .contour pts :: es =>
    let toks := if pts.length < 2 then []
      else pts.map (fun p => hashPointTypeChar p.ptype ++ qToken p.x ++ qToken p.y)
    match hashList resolve compHandler es with
    | .error e => .error e
    | .ok rest => .ok (toks ++ rest)
  | .component base xs xys yxs ys xo yo :: es =>
    let attrToks := [xs, xys, yxs, ys, xo, yo].filterMap
      (fun o => o.map qToken)
    match resolve base with
    | .error e => .error e
    | .ok compOutline =>
      match compHandler compOutline with
      | .error e => .error e
      | .ok subToks =>
        match hashList resolve compHandler es with
        | .error e => .error e
        | .ok rest => .ok (("base:" ++ base) :: attrToks ++ subToks ++ rest)

/-- One level of the hash builder's component recursion, with `fuel`
remaining levels (`fuel = 10 - level` of the call that enters it):
entering with no fuel left is the recursive call at `level > 10` and
raises `UFOParseError`; otherwise the component's token list is seeded
with its `w<width>` token, the (`None` or childless) outline case
contributing nothing further. -/
def hashAtFuel (resolve : Resolver) (width : ℤ) :
    Nat → Option Outline → Except PyErr (List String)
  | 0, _ => .error .ufoParseError
  | fuel + 1, compOutline =>
    let wTok := "w" ++ toString width
    match compOutline with
    | some (c :: cs) =>
      match hashList resolve (fun o => hashAtFuel resolve width fuel o)
          (c :: cs) with
      | .error e => .error e
      | .ok sl => .ok (wTok :: sl)
    | _ => .ok [wTok]

/-- buildGlyphHashValue: the ordered token list seeded with the advance
width.  Raises `UFOParseError` past 10 levels of component reference.
(The final step — the concatenation, kept verbatim under 128 characters
and replaced by its SHA-512 digest otherwise — is a library call on this
token list and is not modelled; no claim depends on it.) -/
def buildGlyphHashValue (resolve : Resolver) (width : ℤ)
    (outline : Option Outline) (level : Nat) :
    Except PyErr (List String) :=
  if level > 10 then .error .ufoParseError
  else
    let wTok := "w" ++ toString width
    match outline with
    | some (c :: cs) =>
      match hashList resolve
          (fun o => hashAtFuel resolve width (10 - level) o) (c :: cs) with
      | .error e => .error e
      | .ok sl => .ok (wTok :: sl)
    | _ => .ok [wTok]

/-! ## Hint-mask assembler (`HintMask`, `addHintList`, `makeHintList`,
`makeStemHintList`) -/

/-- Operand-stack limit `kStackLimit`. -/
def kStackLimit : ℕ := 46

/-- The stack-argument budget `int((kStackLimit - 2) / 2)`. -/
def hintBudget : ℕ := (kStackLimit - 2) / 2

/-- Python's `<` on lists under an element comparison: lexicographic, a
strict prefix is smaller. -/
def lexLt {α : Type} (eltLt : α → α → Bool) : List α → List α → Bool
  | _, [] => false
  | [], _ :: _ => true
  | a :: as2, b :: bs =>
    if eltLt a b then true
    else if eltLt b a then false
    else lexLt eltLt as2 bs

/-- Python's `<` on floats, on the rational model. -/
def qLt (a b : ℚ) : Bool := decide (a < b)

/-- Python's `<` on argument lists (lists of floats). -/
def argListLt : List ℚ → List ℚ → Bool := lexLt qLt

/-- Python's `<` on stem3 groups (lists of argument lists). -/
def stem3Lt : List (List ℚ) → List (List ℚ) → Bool := lexLt argListLt

/-- Insert `x` into `acc` after every element not greater than it; the
building block of a stable ascending sort. -/
def insertLt {α : Type} (lt : α → α → Bool) (x : α) : List α → List α
  | [] => [x]
  | y :: ys => if lt x y then x :: y :: ys else y :: insertLt lt x ys

/-- Python's stable ascending `list.sort()` under the strict comparison
`lt`, as a left-to-right stable insertion sort. -/
def pySort {α : Type} (lt : α → α → Bool) (l : List α) : List α :=
  l.foldl (fun acc x => insertLt lt x acc) []

/-- Position/width pair strings of one stem3 group.  A group element
that is not a pair raises the `ValueError` of Python tuple unpacking. -/
def stem3PairStrs : List (List ℚ) → Except PyErr (List String)
  | [] => .ok []
  | pw :: rest =>
    match pw with
    | [pos, width] =>
      match stem3PairStrs rest with
      | .error e => .error e
      | .ok strs => .ok ((qToken pos ++ " " ++ qToken width) :: strs)
    | _ => .error .valueError

/-- Pairs of every group of a stem3 list, flattened in order. -/
def stem3GroupStrs : List (List (List ℚ)) → Except PyErr (List String)
  | [] => .ok []
  | g :: gs =>
    match stem3PairStrs g with
    | .error e => .error e
    | .ok strs =>
      match stem3GroupStrs gs with
      | .error e => .error e
      | .ok rest => .ok (strs ++ rest)

/-- makeStemHintList: one string holding the stem3 operator followed by
every (position, width) pair of every group. -/
def makeStemHintList (hintsStem3 : List (List (List ℚ))) (isH : Bool) :
    Except PyErr (List String) :=
  let op := if isH then "hstem3" else "vstem3"
  match stem3GroupStrs hintsStem3 with
  | .error e => .error e
  | .ok ps => .ok [String.intercalate " " (op :: ps)]

/-- makeHintList: one string per stem hint (`hstem pos width` /
`vstem pos width`); empty (falsy) hints are skipped; a hint with fewer
than two arguments raises `IndexError`. -/
def makeHintList (hints : List (List ℚ)) (isH : Bool) :
    Except PyErr (List String) :=
  match hints with
  | [] => .ok []
  | hint :: rest =>
    match hint with
    | [] => makeHintList rest isH
    | pos :: width :: _ =>
      match makeHintList rest isH with
      | .error e => .error e
      | .ok strs =>
        .ok (((if isH then "hstem" else "vstem") ++ " " ++ qToken pos ++
          " " ++ qToken width) :: strs)
    | [_] => .error .indexError

/-- addHintList: stem3 groups win over plain stems for the axis; the
chosen list is sorted in place with Python's `sort()` and truncated to
the first `hintBudget` entries when it reaches the budget. -/
def addHintList (hints : List (List ℚ)) (hintsStem3 : List (List (List ℚ)))
    (isH : Bool) : Except PyErr (List String) :=
  if hintsStem3.length > 0 then
    let sorted := pySort stem3Lt hintsStem3
    let taken := if sorted.length ≥ hintBudget then sorted.take hintBudget
                 else sorted
    makeStemHintList taken isH
  else
    let sorted := pySort argListLt hints
    let taken := if sorted.length ≥ hintBudget then sorted.take hintBudget
                 else sorted
    makeHintList taken isH

/-- HintMask: the accumulating hint groups of one mask.  The
`listPos`-derived point name is `hintSet` plus the zero-padded position. -/
structure HintMask where
  listPos : ℕ
  hList : List (List ℚ)
  vList : List (List ℚ)
  hstem3List : List (List (List ℚ))
  vstem3List : List (List (List ℚ))
  pointName : String
  deriving DecidableEq, Repr

/-- Left-pad a numeral with zeros to width four (`str(n).zfill(4)`). -/
def zfill4 (n : ℕ) : String :=
  let s := toString n
  String.mk (List.replicate (4 - s.length) '0') ++ s

/-- HintMask construction at a list position. -/
def HintMask.make (listPos : ℕ) : HintMask :=
  { listPos := listPos, hList := [], vList := [], hstem3List := [],
    vstem3List := [], pointName := "hintSet" ++ zfill4 listPos }

/-- HintMask.addHintSet, reduced to the strings appended to the `stems`
array: the horizontal call is guarded by `len(hList) > 0 or
len(vstem3List)` — the source tests `vstem3List`, not `hstem3List`,
in the horizontal branch — and the vertical call by `len(vList) > 0 or
len(vstem3List)`. -/
def HintMask.addHintSet (m : HintMask) : Except PyErr (List String) :=
  let p1 : Except PyErr (List String) :=
    if m.hList.length > 0 ∨ m.vstem3List.length ≠ 0 then
      addHintList m.hList m.hstem3List true
    else .ok []
  let p2 : Except PyErr (List String) :=
    if m.vList.length > 0 ∨ m.vstem3List.length ≠ 0 then
      addHintList m.vList m.vstem3List false
    else .ok []
  match p1, p2 with
  | .error e, _ => .error e
  | .ok _, .error e => .error e
  | .ok s1, .ok s2 => .ok (s1 ++ s2)

/-! ## Outline codec, decode direction (`convertBezToOutline`) -/

/-- A point of the rebuilt structured outline: coordinates, kind
(`offcurve` models an absent `type` attribute) and the optional `name`
attribute carrying hint-mask or flex anchors. -/
structure DecPoint where
  x : ℚ
  y : ℚ
  ptype : PointType
  name : Option String := none
  deriving DecidableEq, Repr

/-- An `opList` record: operator kind and the pen position it ends at. -/
abbrev OpRec := PointType × ℚ × ℚ

/-- fixStartPoint: when the last operator ends on the first point's
coordinate the redundant closing point is dropped and the first point
takes the last operator's kind; otherwise the first point's kind becomes
`line`.  (Callers only invoke it with at least two points and hence a
non-empty op list; the fall-through arms are unreachable.) -/
def fixStartPoint (item : List DecPoint) (ops : List OpRec) :
    List DecPoint :=
  match item, ops.head?, ops.getLast? with
  | first :: rest, some (_, fx, fy), some (lastOp, lx, ly) =>
    if fx = lx ∧ fy = ly then
      ({ first with ptype := lastOp } :: rest).dropLast
    else { first with ptype := .line } :: rest
  | it, _, _ => it

/-- Replace the last element of a list (in-place mutation of the most
recently created hint mask, which the source reaches through the
`hintMask` alias). -/
def modifyLastMask (f : HintMask → HintMask) : List HintMask → List HintMask
  | [] => []
  | [m] => [f m]
  | m :: ms => m :: modifyLastMask f ms

/-- Decoder state.  `closed` holds the contours of `newOutline` already
finalized; `openItem` is the in-progress `outlineItem`.  The current
`hintMask` is the last element of `hintMaskList` (the source aliases the
object it last appended or seeded). -/
structure DecState where
  flexList : List String
  hintMaskList : List HintMask
  vStem3Args : List (List ℚ)
  hStem3Args : List (List ℚ)
  argList : List ℚ
  opList : List OpRec
  newHintMaskName : Option String
  inPreFlex : Bool
  opIndex : ℕ
  curX : ℚ
  curY : ℚ
  closed : List (List DecPoint)
  openItem : Option (List DecPoint)
  seenHints : Bool
  deriving DecidableEq, Repr

/-- The initial decoder state, seeded with one hint mask at position 0. -/
def initDecState : DecState :=
  { flexList := [], hintMaskList := [HintMask.make 0], vStem3Args := [],
    hStem3Args := [], argList := [], opList := [], newHintMaskName := none,
    inPreFlex := false, opIndex := 0, curX := 0, curY := 0, closed := [],
    openItem := none, seenHints := false }

/-- The current hint mask (last of the list; the list is never empty). -/
def DecState.curMask (st : DecState) : HintMask :=
  (st.hintMaskList.getLast?).getD (HintMask.make 0)

/-- Finalize the open contour when a new move-to arrives or the stream
ends: a one-point contour is discarded, otherwise `fixStartPoint`
resolves its start. -/
def finalizeOpen (closed : List (List DecPoint))
    (openItem : Option (List DecPoint)) (ops : List OpRec) :
    List (List DecPoint) :=
  match openItem with
  | none => closed
  | some pts =>
    if pts.length = 1 then closed else closed ++ [fixStartPoint pts ops]

/-- One step of the decoder's token loop, mirroring the source's
`elif` chain.  Numeric tokens accumulate on `argList`; unrecognized
operators raise `BezParseError`; Python crashes on missing arguments or
a `None` contour are the `indexError` / `attributeError` arms. -/
def decodeTok (st : DecState) (tok : BezTok) : Except PyErr DecState :=
  match tok with
  | .num q => .ok { st with argList := st.argList ++ [q] }
  | .op t =>
    if t = "newcolors" then .ok st
    else if t = "beginsubr" ∨ t = "endsubr" then .ok st
    else if t = "snc" then
      let hm := HintMask.make st.opIndex
      .ok { st with
        hintMaskList :=
          if st.opIndex = 0 then [hm] else st.hintMaskList ++ [hm]
        newHintMaskName := some hm.pointName }
    else if t = "enc" then .ok st
    else if t = "div" then
      match st.argList.reverse with
      | b :: a :: rest =>
        if b = 0 then .error .zeroDivisionError
        else .ok { st with argList := ((a / b) :: rest).reverse }
      | _ => .error .indexError
    else if t = "rb" then
      let newName := match st.newHintMaskName with
        | none => some st.curMask.pointName
        | some n => some n
      .ok { st with
        hintMaskList := modifyLastMask
          (fun m => { m with hList := m.hList ++ [st.argList] })
          st.hintMaskList
        newHintMaskName := newName, argList := [], seenHints := true }
    else if t = "ry" then
      let newName := match st.newHintMaskName with
        | none => some st.curMask.pointName
        | some n => some n
      .ok { st with
        hintMaskList := modifyLastMask
          (fun m => { m with vList := m.vList ++ [st.argList] })
          st.hintMaskList
        newHintMaskName := newName, argList := [], seenHints := true }
    else if t = "rm" then
      let newName := match st.newHintMaskName with
        | none => some st.curMask.pointName
        | some n => some n
      let args2 := st.vStem3Args ++ [st.argList]
      if args2.length = 3 then
        .ok { st with
          hintMaskList := modifyLastMask
            (fun m => { m with vstem3List := m.vstem3List ++ [args2] })
            st.hintMaskList
          vStem3Args := [], newHintMaskName := newName, argList := []
          seenHints := true }
      else
        .ok { st with vStem3Args := args2, newHintMaskName := newName,
                      argList := [], seenHints := true }
    else if t = "rv" then
      let args2 := st.hStem3Args ++ [st.argList]
      if args2.length = 3 then
        .ok { st with
          hintMaskList := modifyLastMask
            (fun m => { m with hstem3List := m.hstem3List ++ [args2] })
            st.hintMaskList
          hStem3Args := [], argList := [], seenHints := true }
      else
        .ok { st with hStem3Args := args2, argList := [], seenHints := true }
    else if t = "preflx1" then
      .ok { st with argList := [], inPreFlex := true }
    else if t = "preflx2a" then
      .ok { st with argList := [] }
    else if t = "flxa" then
      match st.openItem with
      | none => .error .attributeError
      | some pts =>
        match st.argList with
        | a1 :: a2 :: a3 :: a4 :: a5 :: a6 ::
          a7 :: a8 :: a9 :: a10 :: a11 :: a12 :: _ =>
          let fname := "flexCurve" ++ zfill4 st.opIndex
          let sixPts : List DecPoint :=
            [{ x := a1, y := a2, ptype := .offcurve, name := some fname },
             { x := a3, y := a4, ptype := .offcurve },
             { x := a5, y := a6, ptype := .curve },
             { x := a7, y := a8, ptype := .offcurve },
             { x := a9, y := a10, ptype := .offcurve },
             { x := a11, y := a12, ptype := .curve }]
          let maskList := match st.newHintMaskName with
            | some _ => modifyLastMask (fun m => { m with pointName := fname })
                st.hintMaskList
            | none => st.hintMaskList
          .ok { st with
            inPreFlex := false, flexList := st.flexList ++ [fname]
            openItem := some (pts ++ sixPts)
            opList := st.opList ++ [(.curve, a5, a6), (.curve, a11, a12)]
            opIndex := st.opIndex + 2, curX := a11, curY := a12
            hintMaskList := maskList, newHintMaskName := none, argList := [] }
        | _ => .error .indexError
    else if t = "sc" then .ok st
    else if t = "cp" then .ok st
    else if t = "ed" then .ok st
    else if st.inPreFlex ∧ (t = "rmt" ∨ t = "mt") then .ok st
    else if t = "mt" ∨ t = "rmt" ∨ t = "dt" then
      match st.argList with
      | v1 :: v2 :: _ =>
        let cx := if t = "rmt" then st.curX + v1 else v1
        let cy := if t = "rmt" then st.curY + v2 else v2
        if t = "dt" then
          match st.openItem with
          | none => .error .attributeError
          | some pts =>
            let newPt : DecPoint :=
              { x := cx, y := cy, ptype := .line, name := st.newHintMaskName }
            .ok { st with
              opIndex := st.opIndex + 1, curX := cx, curY := cy
              openItem := some (pts ++ [newPt])
              opList := st.opList ++ [(.line, cx, cy)]
              newHintMaskName := none, argList := [] }
        else
          let newPt : DecPoint :=
            { x := cx, y := cy, ptype := .move, name := st.newHintMaskName }
          .ok { st with
            opIndex := st.opIndex + 1, curX := cx, curY := cy
            closed := finalizeOpen st.closed st.openItem st.opList
            openItem := some [newPt], opList := [(.move, cx, cy)]
            newHintMaskName := none, argList := [] }
      | _ => .error .indexError
    else if t = "ct" then
      match st.openItem with
      | none => .error .attributeError
      | some pts =>
        match st.argList with
        | a1 :: a2 :: a3 :: a4 :: a5 :: a6 :: _ =>
          let threePts : List DecPoint :=
            [{ x := a1, y := a2, ptype := .offcurve
               name := st.newHintMaskName },
             { x := a3, y := a4, ptype := .offcurve },
             { x := a5, y := a6, ptype := .curve }]
          .ok { st with
            opIndex := st.opIndex + 1, curX := a5, curY := a6
            openItem := some (pts ++ threePts)
            opList := st.opList ++ [(.curve, a5, a6)]
            newHintMaskName := none, argList := [] }
        | _ => .error .indexError
    else .error .bezParseError

/-- Fold of the decoder over the token stream. -/
def decodeToks : DecState → List BezTok → Except PyErr DecState
  | st, [] => .ok st
  | st, tk :: ts =>
    match decodeTok st tk with
    | .error e => .error e
    | .ok st2 => decodeToks st2 ts

/-- The assembled hint record: per mask its anchor point name and
serialized stems, plus the flex point names. -/
structure HintInfo where
  hintSets : List (String × List String)
  flexNames : List String
  deriving DecidableEq, Repr

/-- Serialize every hint mask (`hintMask.addHintSet(...)` per mask). -/
def assembleHintSets : List HintMask → Except PyErr (List (String × List String))
  | [] => .ok []
  | m :: ms =>
    match m.addHintSet with
    | .error e => .error e
    | .ok strs =>
      match assembleHintSets ms with
      | .error e => .error e
      | .ok rest => .ok ((m.pointName, strs) :: rest)

/-- Result of `convertBezToOutline`: the source returns the pair
`("", None)` for an empty token stream and otherwise the rebuilt outline
element plus the optional hint record. -/
inductive BezResult
  | empty
  | outline (contours : List (List DecPoint)) (hints : Option HintInfo)
  deriving DecidableEq, Repr

/-- convertBezToOutline on the tokenized bez string. -/
def convertBezToOutline (toks : List BezTok) : Except PyErr BezResult :=
  match toks with
  | [] => .ok .empty
  | _ =>
    match decodeToks initDecState toks with
    | .error e => .error e
    | .ok st =>
      let contours := finalizeOpen st.closed st.openItem st.opList
      if st.seenHints ∨ st.flexList ≠ [] then
        match assembleHintSets st.hintMaskList with
        | .error e => .error e
        | .ok sets =>
          .ok (.outline contours (some { hintSets := sets
                                         flexNames := st.flexList }))
      else .ok (.outline contours none)

/-! ## Supporting lemmas for the cache protocol -/

theorem dictSet_lookup_self (m : List (String × HashEntry)) (k : String)
    (v : HashEntry) : (dictSet m k v).lookup k = some v := by
  induction m with
  | nil => simp [dictSet, List.lookup]
  | cons hd tl ih =>
    obtain ⟨a, b⟩ := hd
    by_cases hak : a = k
    · simp [dictSet, hak, List.lookup]
    · simp only [dictSet, if_neg hak, List.lookup]
      have : (k == a) = false := by
        simp [beq_eq_false_iff_ne]
        exact fun hc => hak hc.symm
      simp [this, ih]

theorem dictSet_ne_nil (m : List (String × HashEntry)) (k : String)
    (v : HashEntry) : dictSet m k v ≠ [] := by
  cases m with
  | nil => simp [dictSet]
  | cons hd tl =>
    obtain ⟨a, b⟩ := hd
    by_cases hak : a = k <;> simp [dictSet, hak]

theorem loaded_eq_effMap (st : CacheState) :
    (if st.hashMap.isEmpty then { st with hashMap := st.diskHashMap }
     else st) = { st with hashMap := st.effMap } := by
  unfold CacheState.effMap
  split <;> rfl

theorem hashDiffUpdate_spec (st : CacheState) (g n : String) :
    (st.hashDiffUpdate g n).hashMap = dictSet st.hashMap g (n, [kAutohintName]) ∧
    (st.hashDiffUpdate g n).hashMapChanged = true ∧
    (st.hashDiffUpdate g n).useHashMap = st.useHashMap ∧
    (st.hashDiffUpdate g n).useProcessedLayer = st.useProcessedLayer ∧
    (st.hashDiffUpdate g n).requiredHistory = st.requiredHistory ∧
    (st.hashDiffUpdate g n).errorLog = st.errorLog ∧
    (∀ p, st.getGlyphProcessedPath g = some p → p ∈ st.existingFiles →
      p ∉ (st.hashDiffUpdate g n).existingFiles ∧
      (st.hashDiffUpdate g n).deletedGlyph = true) := by
  unfold CacheState.hashDiffUpdate
  rcases hp : st.getGlyphProcessedPath g with _ | p <;>
    simp only [CacheState.getGlyphProcessedPath] at hp
  · simp [CacheState.removeIfExists, CacheState.getGlyphProcessedPath, hp]
  · by_cases hex : p ∈ st.existingFiles
    · simp [CacheState.removeIfExists, CacheState.getGlyphProcessedPath, hp,
        hex, List.mem_filter]
    · simp [CacheState.removeIfExists, CacheState.getGlyphProcessedPath, hp,
        hex]
/-- The `foundMatch` flag of the changed-hash branch: only with the
processed layer in use, some stored history, and a required tool in it. -/
def checkSkipFoundMatch (st : CacheState) (hist : List String) : Bool :=
  if st.useProcessedLayer then
    if hist.length > 0 then st.requiredHistory.any (fun p => p ∈ hist)
    else false
  else false

theorem checkSkipLoaded_hashDiff (st : CacheState) (g n sh : String)
    (hist : List String) (d : Bool)
    (hEntry : st.hashMap.lookup g = some (sh, hist)) (hNe : sh ≠ n) :
    CacheState.checkSkipLoaded st g n d =
      (checkSkipFoundMatch st hist,
       CacheState.hashDiffUpdate
         (if checkSkipFoundMatch st hist then
            { st with errorLog := st.errorLog ++
                [(g, st.requiredHistory, kAutohintName)] }
          else st) g n) := by
  unfold CacheState.checkSkipLoaded checkSkipFoundMatch
  simp only [hEntry, Option.map_some', Option.getD_some]
  rw [if_neg (by simp [hNe])]

theorem checkSkipLoaded_absent (st : CacheState) (g n : String) (d : Bool)
    (hEntry : st.hashMap.lookup g = none) :
    CacheState.checkSkipLoaded st g n d =
      (false, st.hashDiffUpdate g n) := by
  unfold CacheState.checkSkipLoaded
  simp [hEntry]

theorem checkSkipLoaded_hit (st : CacheState) (g n : String)
    (hist : List String)
    (hEntry : st.hashMap.lookup g = some (n, hist))
    (hIn : kAutohintName ∈ hist) :
    CacheState.checkSkipLoaded st g n false = (true, st) := by
  unfold CacheState.checkSkipLoaded
  simp [hEntry, hIn]

theorem checkSkipGlyph_eq_loaded (st : CacheState) (g n : String)
    (d : Bool) (hOn : st.useHashMap = true) :
    CacheState.checkSkipGlyph st g n d =
      CacheState.checkSkipLoaded { st with hashMap := st.effMap } g n d := by
  unfold CacheState.checkSkipGlyph
  rw [loaded_eq_effMap]
  simp [hOn]

/-- C2: with the hash map enabled, a stored entry whose hash differs
from the new source hash, and the processed-layer policy in use: if a
required tool is in the stored history, skip is returned true and an
error record naming the required tools is logged; regardless of that
outcome the entry is overwritten to `(newHash, [autohint])` with the
map marked changed, and an existing processed-layer file is removed
with `deletedGlyph` set. -/
theorem C2_changedHash_protocol (st : CacheState) (g n sh : String)
    (hist : List String) (d : Bool)
    (hOn : st.useHashMap = true)
    (hEntry : st.effMap.lookup g = some (sh, hist))
    (hNe : sh ≠ n)
    (hPL : st.useProcessedLayer = true) :
    ((∃ p ∈ st.requiredHistory, p ∈ hist) →
       (CacheState.checkSkipGlyph st g n d).1 = true ∧
       (CacheState.checkSkipGlyph st g n d).2.errorLog =
         st.errorLog ++ [(g, st.requiredHistory, kAutohintName)]) ∧
    (CacheState.checkSkipGlyph st g n d).2.hashMap.lookup g =
      some (n, [kAutohintName]) ∧
    (CacheState.checkSkipGlyph st g n d).2.hashMapChanged = true ∧
    (∀ p, st.getGlyphProcessedPath g = some p → p ∈ st.existingFiles →
       p ∉ (CacheState.checkSkipGlyph st g n d).2.existingFiles ∧
       (CacheState.checkSkipGlyph st g n d).2.deletedGlyph = true) := by
  have hwrap := checkSkipGlyph_eq_loaded st g n d hOn
  have hEntryL : ({ st with hashMap := st.effMap } : CacheState).hashMap.lookup g
      = some (sh, hist) := hEntry
  have hmain := checkSkipLoaded_hashDiff { st with hashMap := st.effMap }
    g n sh hist d hEntryL hNe
  rw [hwrap, hmain]
  set L : CacheState := { st with hashMap := st.effMap } with hLdef
  set fm := checkSkipFoundMatch L hist with hfmdef
  set L2 : CacheState := (if fm then
      { L with errorLog := L.errorLog ++
          [(g, st.requiredHistory, kAutohintName)] } else L) with hL2def
  obtain ⟨s1, s2, s3, s4, s5, s6, s7⟩ := hashDiffUpdate_spec L2 g n
  have hMapEq : L2.hashMap = st.effMap := by
    rw [hL2def]
    split <;> rfl
  have hPathEq : L2.getGlyphProcessedPath g = st.getGlyphProcessedPath g := by
    rw [hL2def]
    unfold CacheState.getGlyphProcessedPath
    split <;> rfl
  have hFilesEq : L2.existingFiles = st.existingFiles := by
    rw [hL2def]
    split <;> rfl
  refine ⟨?_, ?_, ?_, ?_⟩
  · rintro ⟨p, hp, hph⟩
    have hfm : fm = true := by
      rw [hfmdef]
      unfold checkSkipFoundMatch
      have hup : L.useProcessedLayer = true := hPL
      have hlen : hist.length > 0 :=
        List.length_pos.mpr (fun hc => by
          subst hc; exact (List.not_mem_nil p) hph)
      simp only [hup, hPL, hlen, List.any_eq_true, decide_eq_true_eq,
        eq_self_iff_true, if_true]
      exact ⟨p, hp, hph⟩
    refine ⟨hfm, ?_⟩
    rw [s6, hL2def, if_pos hfm]
  · rw [s1, hMapEq]
    exact dictSet_lookup_self _ _ _
  · exact s2
  · intro p hpth hmem
    have h1 : L2.getGlyphProcessedPath g = some p := by rw [hPathEq]; exact hpth
    have h2 : p ∈ L2.existingFiles := by rw [hFilesEq]; exact hmem
    exact s7 p h1 h2

/-- A concrete cache state for the witness: one glyph `A` with stored
hash `h1` and history `[checkOutlines]`, processed-layer policy and an
existing processed file. -/
def cacheSample : CacheState :=
  { useHashMap := true, useProcessedLayer := true
    requiredHistory := ["checkOutlines"]
    hashMap := [("A", ("h1", ["checkOutlines"]))], diskHashMap := []
    hashMapChanged := false, deletedGlyph := false
    processedPaths := [("A", "A.glif")], existingFiles := ["A.glif"]
    errorLog := [] }

/-- C2 witness: the spec's concrete protocol row — entry `(h1,
[checkOutlines])`, new hash `h2`, prefer-processed policy, required
tools `[checkOutlines]`. -/
theorem C2_witness :
    (CacheState.checkSkipGlyph cacheSample "A" "h2" false).1 = true ∧
    (CacheState.checkSkipGlyph cacheSample "A" "h2" false).2.hashMap.lookup
      "A" = some ("h2", [kAutohintName]) ∧
    (CacheState.checkSkipGlyph cacheSample "A" "h2" false).2.deletedGlyph
      = true := by
  have h := C2_changedHash_protocol cacheSample "A" "h2" "h1"
    ["checkOutlines"] false rfl (by decide) (by decide) rfl
  refine ⟨(h.1 ⟨"checkOutlines", by decide, by decide⟩).1, h.2.1, ?_⟩
  exact (h.2.2.2 "A.glif" (by decide) (by decide)).2

/-- C7: with the hash map enabled and no entry for the glyph, a first
`checkSkipGlyph` call returns skip = false and records
`(newHash, [autohint])`, and an immediately repeated call with the same
hash returns skip = true. -/
theorem C7_checkSkip_twice (st : CacheState) (g n : String)
    (hOn : st.useHashMap = true)
    (hAbsent : st.effMap.lookup g = none) :
    (CacheState.checkSkipGlyph st g n false).1 = false ∧
    (CacheState.checkSkipGlyph st g n false).2.hashMap.lookup g =
      some (n, [kAutohintName]) ∧
    (CacheState.checkSkipGlyph
      (CacheState.checkSkipGlyph st g n false).2 g n false).1 = true := by
  have hwrap := checkSkipGlyph_eq_loaded st g n false hOn
  have habs := checkSkipLoaded_absent { st with hashMap := st.effMap } g n
    false hAbsent
  obtain ⟨s1, s2, s3, s4, s5, s6, s7⟩ :=
    hashDiffUpdate_spec { st with hashMap := st.effMap } g n
  have h1st : (CacheState.checkSkipGlyph st g n false).1 = false := by
    rw [hwrap, habs]
  have h2nd : (CacheState.checkSkipGlyph st g n false).2 =
      CacheState.hashDiffUpdate { st with hashMap := st.effMap } g n := by
    rw [hwrap, habs]
  have hlk : (CacheState.hashDiffUpdate { st with hashMap := st.effMap }
      g n).hashMap.lookup g = some (n, [kAutohintName]) := by
    rw [s1]
    exact dictSet_lookup_self _ _ _
  refine ⟨h1st, by rw [h2nd]; exact hlk, ?_⟩
  rw [h2nd]
  set st2 := CacheState.hashDiffUpdate { st with hashMap := st.effMap } g n
    with hst2
  have hOn2 : st2.useHashMap = true := by rw [hst2, s3]; exact hOn
  have hwrap2 := checkSkipGlyph_eq_loaded st2 g n false hOn2
  have hne2 : st2.hashMap ≠ [] := by
    rw [hst2, s1]
    exact dictSet_ne_nil _ _ _
  have heff2 : st2.effMap = st2.hashMap := by
    unfold CacheState.effMap
    rw [if_neg (by simp [List.isEmpty_iff, hne2])]
  have hEntry2 : ({ st2 with hashMap := st2.effMap } :
      CacheState).hashMap.lookup g = some (n, [kAutohintName]) := by
    show st2.effMap.lookup g = _
    rw [heff2, hst2]
    exact hlk
  have hhit := checkSkipLoaded_hit { st2 with hashMap := st2.effMap } g n
    [kAutohintName] hEntry2 (by simp)
  rw [hwrap2, hhit]

/-- C7 witness: an empty cache with the hash map enabled. -/
theorem C7_witness :
    (CacheState.checkSkipGlyph
      { useHashMap := true, useProcessedLayer := true, requiredHistory := []
        hashMap := [], diskHashMap := [], hashMapChanged := false
        deletedGlyph := false, processedPaths := [], existingFiles := []
        errorLog := [] } "B" "h9" false).1 = false ∧
    (CacheState.checkSkipGlyph
      (CacheState.checkSkipGlyph
        { useHashMap := true, useProcessedLayer := true, requiredHistory := []
          hashMap := [], diskHashMap := [], hashMapChanged := false
          deletedGlyph := false, processedPaths := [], existingFiles := []
          errorLog := [] } "B" "h9" false).2 "B" "h9" false).1 = true := by
  have h := C7_checkSkip_twice
    { useHashMap := true, useProcessedLayer := true, requiredHistory := []
      hashMap := [], diskHashMap := [], hashMapChanged := false
      deletedGlyph := false, processedPaths := [], existingFiles := []
      errorLog := [] } "B" "h9" rfl (by decide)
  exact ⟨h.1, h.2.2⟩

/-! ## Sorting facts for the hint-mask assembler -/

/-- A strict comparison usable by Python's sort: asymmetric, transitive,
and such that mutual incomparability forces equality. -/
structure StrictLt {α : Type} (lt : α → α → Bool) : Prop where
  asymm : ∀ a b, lt a b = true → lt b a = false
  lt_trans : ∀ a b c, lt a b = true → lt b c = true → lt a c = true
  tie_eq : ∀ a b, lt a b = false → lt b a = false → a = b

theorem qLt_strict : StrictLt qLt := by
  constructor
  · intro a b h
    simp only [qLt, decide_eq_true_eq] at h
    simp only [qLt, decide_eq_false_iff_not]
    exact not_lt.mpr h.le
  · intro a b c h1 h2
    simp only [qLt, decide_eq_true_eq] at h1 h2
    simp only [qLt, decide_eq_true_eq]
    exact h1.trans h2
  · intro a b h1 h2
    simp only [qLt, decide_eq_false_iff_not, not_lt] at h1 h2
    exact le_antisymm h2 h1

theorem lexLt_strict {α : Type} (lt : α → α → Bool) (hS : StrictLt lt) :
    StrictLt (lexLt lt) := by
  constructor
  · intro a
    induction a with
    | nil =>
      intro b h
      cases b with
      | nil => simp [lexLt] at h
      | cons y ys => simp [lexLt]
    | cons x xs ih =>
      intro b h
      cases b with
      | nil => simp [lexLt] at h
      | cons y ys =>
        by_cases h1 : lt x y = true
        · simp [lexLt, h1, hS.asymm x y h1]
        · by_cases h2 : lt y x = true
          · rw [Bool.not_eq_true] at h1
            simp [lexLt, h1, h2] at h
          · rw [Bool.not_eq_true] at h1 h2
            simp only [lexLt, h1, h2, if_false] at h
            simp [lexLt, h1, h2, ih ys h]
  · intro a
    induction a with
    | nil =>
      intro b c h1 h2
      cases b with
      | nil => simp [lexLt] at h1
      | cons y ys =>
        cases c with
        | nil => simp [lexLt] at h2
        | cons z zs => simp [lexLt]
    | cons x xs ih =>
      intro b c h1 h2
      cases b with
      | nil => simp [lexLt] at h1
      | cons y ys =>
        cases c with
        | nil => simp [lexLt] at h2
        | cons z zs =>
          by_cases e1 : lt x y = true
          · by_cases e2 : lt y z = true
            · simp [lexLt, hS.lt_trans x y z e1 e2]
            · by_cases e3 : lt z y = true
              · rw [Bool.not_eq_true] at e2
                simp [lexLt, e2, e3] at h2
              · rw [Bool.not_eq_true] at e2 e3
                have hyz := hS.tie_eq y z e2 e3
                subst hyz
                simp [lexLt, e1]
          · by_cases e4 : lt y x = true
            · rw [Bool.not_eq_true] at e1
              simp [lexLt, e1, e4] at h1
            · rw [Bool.not_eq_true] at e1 e4
              have hxy := hS.tie_eq x y e1 e4
              subst hxy
              simp only [lexLt, e1, if_false] at h1
              by_cases e5 : lt x z = true
              · simp [lexLt, e5]
              · by_cases e6 : lt z x = true
                · rw [Bool.not_eq_true] at e5
                  simp [lexLt, e5, e6] at h2
                · rw [Bool.not_eq_true] at e5 e6
                  have hxz := hS.tie_eq x z e5 e6
                  simp only [lexLt, e5, e6, if_false] at h2 ⊢
                  subst hxz
                  exact ih ys zs h1 h2
  · intro a
    induction a with
    | nil =>
      intro b h1 h2
      cases b with
      | nil => rfl
      | cons y ys => simp [lexLt] at h1
    | cons x xs ih =>
      intro b h1 h2
      cases b with
      | nil => simp [lexLt] at h2
      | cons y ys =>
        by_cases e1 : lt x y = true
        · simp [lexLt, e1] at h1
        · by_cases e2 : lt y x = true
          · simp [lexLt, e2] at h2
          · rw [Bool.not_eq_true] at e1 e2
            have hxy := hS.tie_eq x y e1 e2
            subst hxy
            simp only [lexLt, e1, if_false] at h1 h2
            rw [ih ys h1 h2]

theorem argListLt_strict : StrictLt argListLt :=
  lexLt_strict qLt qLt_strict

theorem stem3Lt_strict : StrictLt stem3Lt :=
  lexLt_strict argListLt argListLt_strict

theorem insertLt_perm {α : Type} (lt : α → α → Bool) (x : α)
    (l : List α) : (insertLt lt x l).Perm (x :: l) := by
  induction l with
  | nil => rfl
  | cons y ys ih =>
    unfold insertLt
    split
    · rfl
    · exact (ih.cons y).trans (List.Perm.swap x y ys)

theorem pairwise_insertLt {α : Type} (lt : α → α → Bool)
    (hS : StrictLt lt) (x : α) :
    ∀ l : List α, l.Pairwise (fun a b => lt b a = false) →
      (insertLt lt x l).Pairwise (fun a b => lt b a = false) := by
  intro l
  induction l with
  | nil =>
    intro _
    simp [insertLt]
  | cons y ys ih =>
    intro hl
    rw [List.pairwise_cons] at hl
    obtain ⟨hy, hys⟩ := hl
    unfold insertLt
    by_cases hxy : lt x y = true
    · rw [if_pos hxy, List.pairwise_cons]
      constructor
      · intro z hz
        rcases List.mem_cons.mp hz with hz1 | hz2
        · subst hz1
          exact hS.asymm x _ hxy
        · by_cases hb : lt z x = true
          · exfalso
            have hzy := hS.lt_trans z x y hb hxy
            rw [hy z hz2] at hzy
            cases hzy
          · rw [Bool.not_eq_true] at hb
            exact hb
      · exact List.pairwise_cons.mpr ⟨hy, hys⟩
    · rw [if_neg hxy, List.pairwise_cons]
      rw [Bool.not_eq_true] at hxy
      constructor
      · intro z hz
        have hmem := (insertLt_perm lt x ys).mem_iff.mp hz
        rcases List.mem_cons.mp hmem with hz1 | hz2
        · subst hz1
          exact hxy
        · exact hy z hz2
      · exact ih hys

theorem pySortAux_perm {α : Type} (lt : α → α → Bool) :
    ∀ (l acc : List α),
      (l.foldl (fun acc x => insertLt lt x acc) acc).Perm (acc ++ l) := by
  intro l
  induction l with
  | nil => intro acc; simp
  | cons x xs ih =>
    intro acc
    have h1 := ih (insertLt lt x acc)
    have h2 : (insertLt lt x acc ++ xs).Perm (acc ++ x :: xs) := by
      refine ((insertLt_perm lt x acc).append_right xs).trans ?_
      exact List.perm_middle.symm.trans (by simp)
    simpa using h1.trans h2
  
theorem pySort_perm {α : Type} (lt : α → α → Bool) (l : List α) :
    (pySort lt l).Perm l := by
  simpa using pySortAux_perm lt l []

theorem pySortAux_pairwise {α : Type} (lt : α → α → Bool)
    (hS : StrictLt lt) :
    ∀ (l acc : List α), acc.Pairwise (fun a b => lt b a = false) →
      (l.foldl (fun acc x => insertLt lt x acc) acc).Pairwise
        (fun a b => lt b a = false) := by
  intro l
  induction l with
  | nil => intro acc h; simpa using h
  | cons x xs ih =>
    intro acc h
    exact ih (insertLt lt x acc) (pairwise_insertLt lt hS x acc h)

theorem pySort_pairwise {α : Type} (lt : α → α → Bool)
    (hS : StrictLt lt) (l : List α) :
    (pySort lt l).Pairwise (fun a b => lt b a = false) :=
  pySortAux_pairwise lt hS l [] List.Pairwise.nil

theorem makeHintList_length_le (isH : Bool) :
    ∀ (hints : List (List ℚ)) (out : List String),
      makeHintList hints isH = .ok out → out.length ≤ hints.length := by
  intro hints
  induction hints with
  | nil =>
    intro out h
    unfold makeHintList at h
    cases h
    simp
  | cons hd tl ih =>
    intro out h
    unfold makeHintList at h
    match hd, h with
    | [], h =>
      exact (ih out h).trans (by simp)
    | pos :: width :: rest, h =>
      cases hrec : makeHintList tl isH with
      | error e => rw [hrec] at h; cases h
      | ok strs =>
        rw [hrec] at h
        cases h
        simpa using ih strs hrec

/-! ## Claims C5 and C6: hint serialization -/

/-- The claim's comparison for C6 — "stable sort by stem position":
compare only the stem positions (first elements), never the widths. -/
def posOnlyLt (a b : List ℚ) : Bool :=
  match a, b with
  | x :: _, y :: _ => qLt x y
  | _, _ => false

/-- Twenty-three stems sharing position 0 with widths descending from 22
to 0: more than the budget of 22, with position ties that expose the
difference between Python's (position, width) sort and a stable sort by
position alone. -/
def c6Hints : List (List ℚ) :=
  [[0, 22], [0, 21], [0, 20], [0, 19], [0, 18], [0, 17], [0, 16], [0, 15],
   [0, 14], [0, 13], [0, 12], [0, 11], [0, 10], [0, 9], [0, 8], [0, 7],
   [0, 6], [0, 5], [0, 4], [0, 3], [0, 2], [0, 1], [0, 0]]

/-- C6 counterexample: on stems with equal positions and differing
widths, the serialized truncation is NOT "the first N entries after a
stable sort by stem position" — Python sorts the (position, width) pairs
lexicographically, which reorders ties by width and retains a different
set (widths 0..21 instead of the stable 22..1). -/
theorem C6_counterexample :
    addHintList c6Hints [] true ≠
      makeHintList ((pySort posOnlyLt c6Hints).take hintBudget) true := by
  decide

/-- C6 amended: a plain hint list longer than the budget
`N = (46 - 2) / 2 = 22` is serialized as the first `N` entries of the
list sorted ascending by Python's lexicographic (position, width) list
order; the sort is a permutation, the result is sorted, exactly `N`
entries are retained and the serialized output never holds more than
`N` stems. -/
theorem C6_truncation (hints : List (List ℚ)) (isH : Bool)
    (hLen : hints.length > hintBudget) :
    (pySort argListLt hints).Perm hints ∧
    (pySort argListLt hints).Pairwise (fun a b => argListLt b a = false) ∧
    addHintList hints [] isH =
      makeHintList ((pySort argListLt hints).take hintBudget) isH ∧
    ((pySort argListLt hints).take hintBudget).length = hintBudget ∧
    (∀ out, addHintList hints [] isH = .ok out →
      out.length ≤ hintBudget) := by
  have hperm := pySort_perm argListLt hints
  have hlen2 : (pySort argListLt hints).length = hints.length :=
    hperm.length_eq
  have htrunc : addHintList hints [] isH =
      makeHintList ((pySort argListLt hints).take hintBudget) isH := by
    unfold addHintList
    rw [if_neg (by simp)]
    show makeHintList (if (pySort argListLt hints).length ≥ hintBudget
        then (pySort argListLt hints).take hintBudget
        else pySort argListLt hints) isH = _
    rw [if_pos (by rw [hlen2]; exact le_of_lt hLen)]
  refine ⟨hperm, pySort_pairwise argListLt argListLt_strict hints,
    htrunc, ?_, ?_⟩
  · rw [List.length_take, hlen2]
    exact min_eq_left (le_of_lt hLen)
  · intro out hout
    rw [htrunc] at hout
    have := makeHintList_length_le isH _ out hout
    refine this.trans ?_
    rw [List.length_take]
    exact min_le_left _ _

/-- C6 witness: the 23-stem list is truncated to the first 22 after the
sort. -/
theorem C6_witness :
    addHintList c6Hints [] true =
      makeHintList ((pySort argListLt c6Hints).take hintBudget) true ∧
    ((pySort argListLt c6Hints).take hintBudget).length = hintBudget := by
  have h := C6_truncation c6Hints true (by decide)
  exact ⟨h.2.2.1, h.2.2.2.1⟩

/-- C5: a mask holding only a horizontal counter (hstem3) group
serializes NO stems at all — the horizontal branch of `addHintSet` is
guarded by `len(hList) > 0 or len(vstem3List)`, testing the vertical
stem3 list where the horizontal one is meant — although `addHintList`,
called on that group, would serialize it.  This contradicts the claimed
per-axis exclusivity in favor of counter hints (and the T1 comment in
the source that a charstring has stem3 hints or regular hints). -/
theorem C5_hstem3_dropped :
    HintMask.addHintSet
      { HintMask.make 0 with hstem3List := [[[0, 1], [10, 1], [20, 1]]] }
      = .ok [] ∧
    addHintList [] [[[0, 1], [10, 1], [20, 1]]] true =
      .ok ["hstem3 0 1 10 1 20 1"] := by
  constructor <;> decide

/-! ## Claim C9: the `isOffsetOnly` flag versus the linear part -/

/-- C9 counterexample: scaling by 2 and composing with scaling by 1/2 is
reachable (two component attribute transforms combined by `concat`), has
an identity linear part, yet carries `isOffsetOnly = false` — so the
claimed "if and only if" fails in the right-to-left direction. -/
theorem C9_counterexample :
    ReachableT ((UFOTransform.ofAttrs (some 2) none none (some 2) none
        none).concat (some (UFOTransform.ofAttrs (some (1/2)) none none
        (some (1/2)) none none))) ∧
    ((UFOTransform.ofAttrs (some 2) none none (some 2) none
        none).concat (some (UFOTransform.ofAttrs (some (1/2)) none none
        (some (1/2)) none none))).isOffsetOnly = false ∧
    ((UFOTransform.ofAttrs (some 2) none none (some 2) none
        none).concat (some (UFOTransform.ofAttrs (some (1/2)) none none
        (some (1/2)) none none))).linearIsIdentity := by
  refine ⟨ReachableT.concat _ _ (ReachableT.init _ _ _ _ _ _)
    (ReachableT.init _ _ _ _ _ _), ?_, ?_⟩ <;>
  · simp only [UFOTransform.ofAttrs, UFOTransform.concat,
      UFOTransform.linearIsIdentity, Option.getD_some, Option.getD_none]
    norm_num

/-- C9 amended: for every transform reachable from component attributes
and `concat` compositions, `isOffsetOnly = true` implies that the 2x2
linear part is the identity (the converse direction of the claimed "iff"
is false, see the counterexample). -/
theorem C9_offsetOnly_linear_identity (t : UFOTransform)
    (ht : ReachableT t) (hf : t.isOffsetOnly = true) :
    t.linearIsIdentity := by
  induction ht with
  | init xs xys yxs ys xo yo =>
    have hP : ¬(xs.getD 1 ≠ 1 ∨ xys.getD 0 ≠ 0 ∨ yxs.getD 0 ≠ 0 ∨
        ys.getD 1 ≠ 1) := by
      have hb : (!decide (xs.getD 1 ≠ 1 ∨ xys.getD 0 ≠ 0 ∨
          yxs.getD 0 ≠ 0 ∨ ys.getD 1 ≠ 1)) = true := hf
      simpa using hb
    push_neg at hP
    exact ⟨hP.1, hP.2.1, hP.2.2.1, hP.2.2.2⟩
  | concat t u _ _ iht ihu =>
    by_cases hd : u.isDefault = true
    · have e : t.concat (some u) = t := by
        simp [UFOTransform.concat, hd]
      rw [e] at hf ⊢
      exact iht hf
    · by_cases ho : u.isOffsetOnly = true
      · have hflag : (t.concat (some u)).isOffsetOnly = t.isOffsetOnly := by
          simp [UFOTransform.concat, hd, ho]
        have hlin : (t.concat (some u)).linearIsIdentity ↔
            t.linearIsIdentity := by
          simp [UFOTransform.concat, hd, ho, UFOTransform.linearIsIdentity]
        rw [hflag] at hf
        exact hlin.mpr (iht hf)
      · have hflag : (t.concat (some u)).isOffsetOnly =
            (t.isOffsetOnly && u.isOffsetOnly) := by
          simp [UFOTransform.concat, hd, ho]
        rw [hflag] at hf
        simp only [Bool.and_eq_true] at hf
        exact absurd hf.2 ho

/-- C9 witness: a pure-offset component transform is reachable and
offset-only, and the amended theorem yields its identity linear part. -/
theorem C9_witness :
    (UFOTransform.ofAttrs none none none none (some 5) (some 7)).linearIsIdentity :=
  C9_offsetOnly_linear_identity _ (ReachableT.init none none none none
    (some 5) (some 7)) (by decide)

/-! ## Claim C10: `getGlyphID` on a missing glyph name -/

/-- C10: a glyph name absent from the glyph-order map makes `getGlyphID`
raise a plain `KeyError`, not the intended `UFOParseError`: only
`IndexError` is converted, and a dict lookup on a missing key raises
`KeyError`. -/
theorem C10_getGlyphID_keyError (orderMap : List (String × ℕ))
    (glyphName : String) (h : orderMap.lookup glyphName = none) :
    getGlyphID orderMap glyphName = .error .keyError ∧
    getGlyphID orderMap glyphName ≠ .error .ufoParseError := by
  simp [getGlyphID, h]

/-- C10 witness: the empty order map with any name. -/
theorem C10_witness :
    getGlyphID [] "A" = .error .keyError ∧
    getGlyphID [] "A" ≠ .error .ufoParseError :=
  C10_getGlyphID_keyError [] "A" rfl

/-! ## Claim C8: the component recursion depth limit -/

/-- A leaf glyph outline: one two-point contour. -/
def leafOutline : Outline := [.contour [⟨0, 0, .line⟩, ⟨1, 0, .line⟩]]

/-- An outline holding a single untransformed component reference. -/
def compTo (nm : String) : Outline :=
  [.component nm none none none none none none]

/-- Glyph names `g1`, `g2`, ... -/
def gName (i : ℕ) : String := "g" ++ toString i

/-- A component chain of length `n`: `g1` references `g2`, ... and `gn`
is the leaf. -/
def chainEnv (n : ℕ) : List (String × Outline) :=
  (List.range n).map (fun i =>
    (gName (i + 1), if i + 1 = n then leafOutline else compTo (gName (i + 2))))

/-- Resolver over a finite glyph table; a missing name is the fatal
`UFOParseError` of a missing component. -/
def mkResolve (env : List (String × Outline)) : Resolver :=
  fun s =>
    match env.lookup s with
    | some o => .ok (some o)
    | none => .error .ufoParseError

/-- C8: both the encode direction and the hash builder raise
`UFOParseError` whenever entered beyond level 10; a component chain of
nesting depth exactly 10 encodes and hashes successfully, while depth
11 raises `UFOParseError` in both. -/
theorem C8_depth_limit :
    (∀ (resolve : Resolver) (ad : Bool) (outline : Option Outline)
       (tr : Option UFOTransform) (level : Nat), level > 10 →
         convertGlyphOutlineToBezString resolve ad outline tr level =
           .error .ufoParseError) ∧
    (∀ (resolve : Resolver) (w : ℤ) (outline : Option Outline)
       (level : Nat), level > 10 →
         buildGlyphHashValue resolve w outline level =
           .error .ufoParseError) ∧
    convertGlyphOutlineToBezString (mkResolve (chainEnv 10)) false
      (some (compTo (gName 1))) none 0 =
      .ok [.num 0, .num 0, .op "mt", .num 1, .num 0, .op "dt", .op "cp"] ∧
    convertGlyphOutlineToBezString (mkResolve (chainEnv 11)) false
      (some (compTo (gName 1))) none 0 = .error .ufoParseError ∧
    (buildGlyphHashValue (mkResolve (chainEnv 10)) 1000
      (some (compTo (gName 1))) 0).isOk = true ∧
    buildGlyphHashValue (mkResolve (chainEnv 11)) 1000
      (some (compTo (gName 1))) 0 = .error .ufoParseError := by
  refine ⟨?_, ?_, by decide, by decide, by decide, by decide⟩
  · intro resolve ad outline tr level h
    unfold convertGlyphOutlineToBezString
    rw [if_pos h]
  · intro resolve w outline level h
    unfold buildGlyphHashValue
    rw [if_pos h]

/-- C8 witness: level 11 on an empty environment errors in both
directions, and the depth-10 chain succeeds (already hypothesis-free in
the theorem, re-exported through it). -/
theorem C8_witness :
    convertGlyphOutlineToBezString (mkResolve []) false none none 11 =
      .error .ufoParseError ∧
    buildGlyphHashValue (mkResolve []) 1000 none 11 =
      .error .ufoParseError :=
  ⟨C8_depth_limit.1 (mkResolve []) false none none 11 (by decide),
   C8_depth_limit.2.1 (mkResolve []) 1000 none 11 (by decide)⟩

/-! ## Claims C3 and C4: the encoder's contour-opening strategies -/

/-- Modelled from the spec's words for claim C3 (refinement reference,
not source code): for a first point of kind line or curve, rotate the
point list so that this point becomes last, and emit a move-to at its
coordinate; other first kinds as the code has them. -/
def specRotateEncodeContour (allowDecimals : Bool)
    (transform : Option UFOTransform) (pts : List Point) :
    Except PyErr (List BezTok) :=
  match pts with
  | [] => .ok []
  | first :: rest =>
    if first.ptype = .line ∨ first.ptype = .curve then
      match pointLoop allowDecimals transform (rest ++ [first]) [] with
      | .error e => .error e
      | .ok body =>
        .ok (mtToks allowDecimals transform first ++ body ++ [.op "cp"])
    else encodeContour allowDecimals transform pts

/-- C3 counterexample: for a contour opening with a line point the code
does NOT rotate the first point to the end — it drops it (the source
comments that psautohint treats an explicit final line-to differently) —
so the emitted stream lacks the claimed trailing `0 0 dt`. -/
theorem C3_counterexample :
    encodeContour false none [⟨0, 0, .line⟩, ⟨10, 0, .line⟩] =
      .ok [.num 0, .num 0, .op "mt", .num 10, .num 0, .op "dt",
           .op "cp"] ∧
    specRotateEncodeContour false none [⟨0, 0, .line⟩, ⟨10, 0, .line⟩] =
      .ok [.num 0, .num 0, .op "mt", .num 10, .num 0, .op "dt",
           .num 0, .num 0, .op "dt", .op "cp"] ∧
    encodeContour false none [⟨0, 0, .line⟩, ⟨10, 0, .line⟩] ≠
      specRotateEncodeContour false none [⟨0, 0, .line⟩, ⟨10, 0, .line⟩] := by
  refine ⟨by decide, by decide, by decide⟩

/-- C3 amended: a move-to at the first point's (transformed, optionally
rounded) coordinate opens the contour in both cases, but only a first
point of kind curve is rotated to the end of the point list; a first
point of kind line is dropped from the iteration instead. -/
theorem C3_firstOnCurve_moveTo (ad : Bool) (tr : Option UFOTransform)
    (first : Point) (rest : List Point) :
    (first.ptype = .curve →
      encodeContour ad tr (first :: rest) =
        specRotateEncodeContour ad tr (first :: rest)) ∧
    (first.ptype = .line →
      encodeContour ad tr (first :: rest) =
        (match pointLoop ad tr rest [] with
         | .error e => .error e
         | .ok body =>
           .ok (mtToks ad tr first ++ body ++ [.op "cp"]))) := by
  constructor
  · intro h
    unfold encodeContour specRotateEncodeContour
    simp [h]
  · intro h
    unfold encodeContour
    simp [h]

/-- C3 witness: a curve-first contour encodes exactly as the rotation
prescription says. -/
theorem C3_witness :
    encodeContour false none
      [⟨0, 0, .curve⟩, ⟨1, 0, .offcurve⟩, ⟨1, 1, .offcurve⟩] =
      specRotateEncodeContour false none
        [⟨0, 0, .curve⟩, ⟨1, 0, .offcurve⟩, ⟨1, 1, .offcurve⟩] :=
  (C3_firstOnCurve_moveTo false none ⟨0, 0, .curve⟩
    [⟨1, 0, .offcurve⟩, ⟨1, 1, .offcurve⟩]).1 rfl

/-- C4 counterexample: a contour whose first point is off-curve and
whose trailing point has kind `move` raises NO error — the setup emits
no move-to and falls through to the point loop, which emits the move
itself — where the claim demands a fatal `UFOParseError` for any
trailing kind other than line or curve. -/
theorem C4_counterexample :
    encodeContour false none [⟨0, 0, .offcurve⟩, ⟨5, 5, .move⟩] =
      .ok [.num 5, .num 5, .op "mt", .op "cp"] := by
  decide

/-- C4 amended: with an off-curve first point, a trailing line point
gets a move-to at its coordinate and is dropped, a trailing curve point
gets a move-to and is kept; only a trailing point with no kind
(off-curve) raises `UFOParseError` — a trailing move or qccurve point
raises nothing at this stage and proceeds to the normal point
iteration with no opening move-to. -/
theorem C4_offcurveFirst (ad : Bool) (tr : Option UFOTransform)
    (first : Point) (rest : List Point)
    (hf : first.ptype = .offcurve) :
    (((first :: rest).getLast (List.cons_ne_nil first rest)).ptype =
        .offcurve →
      encodeContour ad tr (first :: rest) = .error .ufoParseError) ∧
    (((first :: rest).getLast (List.cons_ne_nil first rest)).ptype =
        .line →
      encodeContour ad tr (first :: rest) =
        (match pointLoop ad tr (first :: rest).dropLast [] with
         | .error e => .error e
         | .ok body =>
           .ok (mtToks ad tr
             ((first :: rest).getLast (List.cons_ne_nil first rest)) ++
             body ++ [.op "cp"]))) ∧
    (((first :: rest).getLast (List.cons_ne_nil first rest)).ptype =
        .curve →
      encodeContour ad tr (first :: rest) =
        (match pointLoop ad tr (first :: rest) [] with
         | .error e => .error e
         | .ok body =>
           .ok (mtToks ad tr
             ((first :: rest).getLast (List.cons_ne_nil first rest)) ++
             body ++ [.op "cp"]))) ∧
    ((((first :: rest).getLast (List.cons_ne_nil first rest)).ptype =
        .move ∨
      ((first :: rest).getLast (List.cons_ne_nil first rest)).ptype =
        .qccurve) →
      encodeContour ad tr (first :: rest) =
        (match pointLoop ad tr (first :: rest) [] with
         | .error e => .error e
         | .ok body => .ok (body ++ [.op "cp"]))) := by
  refine ⟨?_, ?_, ?_, ?_⟩
  · intro h
    unfold encodeContour
    simp [hf, h]
  · intro h
    unfold encodeContour
    simp [hf, h]
  · intro h
    unfold encodeContour
    simp [hf, h]
  · intro h
    unfold encodeContour
    rcases h with h | h <;> simp [hf, h]

/-- C4 witness: an off-curve first point with a trailing off-curve
point raises `UFOParseError`. -/
theorem C4_witness :
    encodeContour false none [⟨0, 0, .offcurve⟩, ⟨1, 1, .offcurve⟩] =
      .error .ufoParseError :=
  (C4_offcurveFirst false none ⟨0, 0, .offcurve⟩ [⟨1, 1, .offcurve⟩]
    rfl).1 rfl

/-! ## Claim C1: the encode/decode round trip

The round trip is settled for outlines whose contours follow the
well-formed GLIF shapes described by `ContourShape`: an on-curve start
point followed by an interleaving of line points and off/off/curve
triples (for a curve start, the contour ends with the two control
points of the initial curve, as GLIF closed contours do). -/

/-- One body segment of a contour: a line point, or a curve with its two
preceding control points.  Coordinates are integers (the decimal-
preservation flag is off, so the encoder's rounding is the identity on
them). -/
inductive BodySeg
  | lineSeg (x y : ℤ)
  | curveSeg (x1 y1 x2 y2 x3 y3 : ℤ)
  deriving DecidableEq, Repr

/-- The GLIF points of a body segment. -/
def segPts : BodySeg → List Point
  | .lineSeg x y => [⟨x, y, .line⟩]
  | .curveSeg x1 y1 x2 y2 x3 y3 =>
    [⟨x1, y1, .offcurve⟩, ⟨x2, y2, .offcurve⟩, ⟨x3, y3, .curve⟩]

/-- The bez tokens the encoder emits for a body segment. -/
def segToks : BodySeg → List BezTok
  | .lineSeg x y => [.num x, .num y, .op "dt"]
  | .curveSeg x1 y1 x2 y2 x3 y3 =>
    [.num x1, .num y1, .num x2, .num y2, .num x3, .num y3, .op "ct"]

/-- The structured points the decoder rebuilds for a body segment. -/
def segDecPts : BodySeg → List DecPoint
  | .lineSeg x y => [⟨x, y, .line, none⟩]
  | .curveSeg x1 y1 x2 y2 x3 y3 =>
    [⟨x1, y1, .offcurve, none⟩, ⟨x2, y2, .offcurve, none⟩,
     ⟨x3, y3, .curve, none⟩]

/-- The `opList` record of a body segment: its operator kind and end
point. -/
def segOp : BodySeg → OpRec
  | .lineSeg x y => (.line, x, y)
  | .curveSeg _ _ _ _ x y => (.curve, x, y)

/-- A well-formed contour shape: a contour starting with a curve point
(whose two control points close the contour), or starting with a line
or move point followed by body segments. -/
inductive ContourShape
  | startCurve (x0 y0 : ℤ) (segs : List BodySeg) (a1 b1 a2 b2 : ℤ)
  | startOn (k : PointType) (x0 y0 : ℤ) (segs : List BodySeg)
  deriving DecidableEq, Repr

/-- Well-formedness: an on-curve (line or move) start needs at least one
body segment. -/
def ContourShape.WF : ContourShape → Prop
  | .startCurve _ _ _ _ _ _ _ => True
  | .startOn k _ _ segs => (k = .line ∨ k = .move) ∧ segs ≠ []

/-- The GLIF contour described by a shape. -/
def shapeContour : ContourShape → List Point
  | .startCurve x0 y0 segs a1 b1 a2 b2 =>
    ⟨x0, y0, .curve⟩ :: ((segs.map segPts).flatten ++
      [⟨a1, b1, .offcurve⟩, ⟨a2, b2, .offcurve⟩])
  | .startOn k x0 y0 segs => ⟨x0, y0, k⟩ :: (segs.map segPts).flatten

/-- The flattened body tokens of a segment list. -/
def segsToks (segs : List BodySeg) : List BezTok :=
  (segs.map segToks).flatten

/-- The bez tokens the encoder emits for a whole shape. -/
def shapeToks : ContourShape → List BezTok
  | .startCurve x0 y0 segs a1 b1 a2 b2 =>
    [.num x0, .num y0, .op "mt"] ++ segsToks segs ++
      [.num a1, .num b1, .num a2, .num b2, .num x0, .num y0, .op "ct"] ++
      [.op "cp"]
  | .startOn _ x0 y0 segs =>
    [.num x0, .num y0, .op "mt"] ++ segsToks segs ++ [.op "cp"]

theorem pyRound_intCast (n : ℤ) : pyRound (n : ℚ) = n := by
  unfold pyRound
  simp [Rat.num_intCast, Rat.den_intCast, Int.fdiv_one]

theorem roundCoord_false_int (n : ℤ) :
    roundCoord false (n : ℚ) = (n : ℚ) := by
  unfold roundCoord
  simp [pyRound_intCast]

theorem segPts_flatten_ne_nil (s : BodySeg) (ss : List BodySeg) :
    ((s :: ss).map segPts).flatten ≠ [] := by
  cases s <;> simp [segPts]

theorem pointLoop_segs_append (tail : List Point) (tl : List BezTok)
    (htail : pointLoop false none tail [] = .ok tl) :
    ∀ segs : List BodySeg,
      pointLoop false none ((segs.map segPts).flatten ++ tail) [] =
        .ok (segsToks segs ++ tl) := by
  intro segs
  induction segs with
  | nil => simpa [segsToks] using htail
  | cons s ss ih =>
    cases s with
    | lineSeg x y =>
      simp [segPts, pointLoop, applyT, roundCoord_false_int, ih,
        segsToks, segToks]
    | curveSeg x1 y1 x2 y2 x3 y3 =>
      simp [segPts, pointLoop, applyT, roundCoord_false_int, ih,
        segsToks, segToks]

theorem encodeContour_shape (s : ContourShape) (hWF : s.WF) :
    encodeContour false none (shapeContour s) = .ok (shapeToks s) := by
  cases s with
  | startCurve x0 y0 segs a1 b1 a2 b2 =>
    have hclose : pointLoop false none
        [(⟨↑a1, ↑b1, .offcurve⟩ : Point), ⟨↑a2, ↑b2, .offcurve⟩,
         ⟨↑x0, ↑y0, .curve⟩] [] =
        .ok [.num ↑a1, .num ↑b1, .num ↑a2, .num ↑b2, .num ↑x0, .num ↑y0,
             .op "ct"] := by
      simp [pointLoop, applyT, roundCoord_false_int]
    have hloop := pointLoop_segs_append _ _ hclose segs
    unfold shapeContour encodeContour
    simp only [List.append_assoc] at hloop ⊢
    simp [hloop, shapeToks, mtToks, applyT, roundCoord_false_int]
  | startOn k x0 y0 segs =>
    obtain ⟨hk, hne⟩ := hWF
    have hloop : pointLoop false none ((segs.map segPts).flatten) [] =
        .ok (segsToks segs) := by
      simpa using pointLoop_segs_append [] [] rfl segs
    rcases hk with hk | hk <;> subst hk
    · unfold shapeContour encodeContour
      simp [hloop, shapeToks, mtToks, applyT, roundCoord_false_int]
    · have hje : ((segs.map segPts).flatten).isEmpty = false := by
        cases segs with
        | nil => exact absurd rfl hne
        | cons s2 ss =>
          cases hbool : (((s2 :: ss).map segPts).flatten).isEmpty with
          | false => rfl
          | true =>
            exact absurd (List.isEmpty_iff.mp hbool)
              (segPts_flatten_ne_nil s2 ss)
      unfold shapeContour encodeContour
      simp only [hje, Bool.false_eq_true, if_false]
      simp only [pointLoop, applyT, roundCoord_false_int, hloop]
      simp [shapeToks]

theorem encodeShapes (resolve : Resolver) (shapes : List ContourShape)
    (hWF : ∀ s ∈ shapes, s.WF) :
    convertGlyphOutlineToBezString resolve false
      (some (shapes.map (fun s => OutlineElem.contour (shapeContour s))))
      none 0 = .ok ((shapes.map shapeToks).flatten) := by
  unfold convertGlyphOutlineToBezString
  rw [if_neg (by decide)]
  show encodeElems resolve false 10 _ none = _
  unfold encodeElems
  induction shapes with
  | nil => rfl
  | cons s ss ih =>
    have hs := encodeContour_shape s (hWF s (by simp))
    have htl := ih (fun t ht => hWF t (by simp [ht]))
    simp only [List.map_cons, List.flatten_cons, encodeList, hs, htl]

/-- A decoder state reachable while decoding a pure outline stream (no
hints, no flex): only the outline-building components vary. -/
def pureSt (closed : List (List DecPoint))
    (openIt : Option (List DecPoint)) (ops : List OpRec) (cx cy : ℚ)
    (oi : ℕ) : DecState :=
  { flexList := [], hintMaskList := [HintMask.make 0], vStem3Args := [],
    hStem3Args := [], argList := [], opList := ops,
    newHintMaskName := none, inPreFlex := false, opIndex := oi,
    curX := cx, curY := cy, closed := closed, openItem := openIt,
    seenHints := false }

theorem decode_mt (c : List (List DecPoint))
    (openIt : Option (List DecPoint)) (ops : List OpRec) (cx cy : ℚ)
    (oi : ℕ) (x y : ℚ) (ts : List BezTok) :
    decodeToks (pureSt c openIt ops cx cy oi)
      ([.num x, .num y, .op "mt"] ++ ts) =
    decodeToks (pureSt (finalizeOpen c openIt ops)
      (some [⟨x, y, .move, none⟩]) [(.move, x, y)] x y (oi + 1)) ts := by
  simp [decodeToks, decodeTok, pureSt]

theorem decode_dt (c : List (List DecPoint)) (pts : List DecPoint)
    (ops : List OpRec) (cx cy : ℚ) (oi : ℕ) (x y : ℚ)
    (ts : List BezTok) :
    decodeToks (pureSt c (some pts) ops cx cy oi)
      ([.num x, .num y, .op "dt"] ++ ts) =
    decodeToks (pureSt c (some (pts ++ [⟨x, y, .line, none⟩]))
      (ops ++ [((PointType.line, x, y) : OpRec)]) x y (oi + 1)) ts := by
  simp [decodeToks, decodeTok, pureSt]

theorem decode_ct (c : List (List DecPoint)) (pts : List DecPoint)
    (ops : List OpRec) (cx cy : ℚ) (oi : ℕ)
    (a1 b1 a2 b2 x y : ℚ) (ts : List BezTok) :
    decodeToks (pureSt c (some pts) ops cx cy oi)
      ([.num a1, .num b1, .num a2, .num b2, .num x, .num y,
        .op "ct"] ++ ts) =
    decodeToks (pureSt c (some (pts ++
        [⟨a1, b1, .offcurve, none⟩, ⟨a2, b2, .offcurve, none⟩,
         ⟨x, y, .curve, none⟩]))
      (ops ++ [(.curve, x, y)]) x y (oi + 1)) ts := by
  simp [decodeToks, decodeTok, pureSt]

theorem decode_cp (c : List (List DecPoint))
    (openIt : Option (List DecPoint)) (ops : List OpRec) (cx cy : ℚ)
    (oi : ℕ) (ts : List BezTok) :
    decodeToks (pureSt c openIt ops cx cy oi) (.op "cp" :: ts) =
    decodeToks (pureSt c openIt ops cx cy oi) ts := by
  simp [decodeToks, decodeTok]

/-- The structured points the decoder accumulates for a segment list. -/
def segsDec (segs : List BodySeg) : List DecPoint :=
  (segs.map segDecPts).flatten

theorem decode_segs :
    ∀ (segs : List BodySeg) (ts : List BezTok)
      (c : List (List DecPoint)) (pts : List DecPoint) (ops : List OpRec)
      (cx cy : ℚ) (oi : ℕ),
      ∃ cx2 cy2 oi2,
        decodeToks (pureSt c (some pts) ops cx cy oi)
          (segsToks segs ++ ts) =
        decodeToks (pureSt c (some (pts ++ segsDec segs))
          (ops ++ segs.map segOp) cx2 cy2 oi2) ts := by
  intro segs
  induction segs with
  | nil =>
    intro ts c pts ops cx cy oi
    exact ⟨cx, cy, oi, by simp [segsToks, segsDec]⟩
  | cons s ss ih =>
    intro ts c pts ops cx cy oi
    cases s with
    | lineSeg x y =>
      obtain ⟨cx2, cy2, oi2, h⟩ := ih ts c (pts ++ [⟨x, y, .line, none⟩])
        (ops ++ [((PointType.line, x, y) : OpRec)]) x y (oi + 1)
      refine ⟨cx2, cy2, oi2, ?_⟩
      rw [show segsToks (BodySeg.lineSeg x y :: ss) ++ ts =
        [.num x, .num y, .op "dt"] ++ (segsToks ss ++ ts) from by
          simp [segsToks, segToks]]
      rw [decode_dt, h]
      simp [segsDec, segDecPts, segOp]
    | curveSeg x1 y1 x2 y2 x3 y3 =>
      obtain ⟨cx2, cy2, oi2, h⟩ := ih ts c
        (pts ++ [⟨x1, y1, .offcurve, none⟩, ⟨x2, y2, .offcurve, none⟩,
          ⟨x3, y3, .curve, none⟩])
        (ops ++ [((PointType.curve, (x3 : ℚ), (y3 : ℚ)) : OpRec)]) x3 y3 (oi + 1)
      refine ⟨cx2, cy2, oi2, ?_⟩
      rw [show segsToks (BodySeg.curveSeg x1 y1 x2 y2 x3 y3 :: ss) ++ ts =
        [.num x1, .num y1, .num x2, .num y2, .num x3, .num y3,
          .op "ct"] ++ (segsToks ss ++ ts) from by simp [segsToks, segToks]]
      rw [decode_ct, h]
      simp [segsDec, segDecPts, segOp]

/-- The points of the open contour the decoder has built right before
finalization, per shape. -/
def shapeDecPts : ContourShape → List DecPoint
  | .startCurve x0 y0 segs a1 b1 a2 b2 =>
    ⟨x0, y0, .move, none⟩ :: (segsDec segs ++
      [⟨a1, b1, .offcurve, none⟩, ⟨a2, b2, .offcurve, none⟩,
       ⟨x0, y0, .curve, none⟩])
  | .startOn _ x0 y0 segs => ⟨x0, y0, .move, none⟩ :: segsDec segs

/-- The decoder's `opList` for one contour, per shape. -/
def shapeOps : ContourShape → List OpRec
  | .startCurve x0 y0 segs _ _ _ _ =>
    ((PointType.move, (x0 : ℚ), (y0 : ℚ)) : OpRec) ::
      (segs.map segOp ++ [((PointType.curve, (x0 : ℚ), (y0 : ℚ)) : OpRec)])
  | .startOn _ x0 y0 segs =>
    ((PointType.move, (x0 : ℚ), (y0 : ℚ)) : OpRec) :: segs.map segOp

theorem decode_shape (s : ContourShape) (ts : List BezTok)
    (c : List (List DecPoint)) (o : Option (List DecPoint))
    (ops : List OpRec) (cx cy : ℚ) (oi : ℕ) :
    ∃ cx2 cy2 oi2,
      decodeToks (pureSt c o ops cx cy oi) (shapeToks s ++ ts) =
      decodeToks (pureSt (finalizeOpen c o ops) (some (shapeDecPts s))
        (shapeOps s) cx2 cy2 oi2) ts := by
  cases s with
  | startOn k x0 y0 segs =>
    rw [show shapeToks (ContourShape.startOn k x0 y0 segs) ++ ts =
      [.num x0, .num y0, .op "mt"] ++
        (segsToks segs ++ ([.op "cp"] ++ ts)) from by simp [shapeToks]]
    rw [decode_mt]
    obtain ⟨cx2, cy2, oi2, h⟩ := decode_segs segs ([.op "cp"] ++ ts)
      (finalizeOpen c o ops) [⟨x0, y0, .move, none⟩]
      [((PointType.move, (x0 : ℚ), (y0 : ℚ)) : OpRec)] x0 y0 (oi + 1)
    rw [h]
    refine ⟨cx2, cy2, oi2, ?_⟩
    rw [show ([.op "cp"] ++ ts : List BezTok) = .op "cp" :: ts from rfl,
      decode_cp]
    simp [shapeDecPts, shapeOps]
  | startCurve x0 y0 segs a1 b1 a2 b2 =>
    rw [show shapeToks (ContourShape.startCurve x0 y0 segs a1 b1 a2 b2) ++
        ts =
      [.num x0, .num y0, .op "mt"] ++
        (segsToks segs ++
          ([.num a1, .num b1, .num a2, .num b2, .num x0, .num y0,
            .op "ct"] ++ ([.op "cp"] ++ ts))) from by simp [shapeToks]]
    rw [decode_mt]
    obtain ⟨cx2, cy2, oi2, h⟩ := decode_segs segs
      ([.num a1, .num b1, .num a2, .num b2, .num x0, .num y0,
        .op "ct"] ++ ([.op "cp"] ++ ts))
      (finalizeOpen c o ops) [⟨x0, y0, .move, none⟩]
      [((PointType.move, (x0 : ℚ), (y0 : ℚ)) : OpRec)] x0 y0 (oi + 1)
    rw [h, decode_ct]
    refine ⟨x0, y0, oi2 + 1, ?_⟩
    rw [show ([.op "cp"] ++ ts : List BezTok) = .op "cp" :: ts from rfl,
      decode_cp]
    simp [shapeDecPts, shapeOps]

/-- The decoder's (closed contours, open contour, op list) evolution
over a list of shapes. -/
def decodeShapeFold :
    List (List DecPoint) × Option (List DecPoint) × List OpRec →
    List ContourShape →
    List (List DecPoint) × Option (List DecPoint) × List OpRec
  | acc, [] => acc
  | (c, o, ops), s :: ss =>
    decodeShapeFold (finalizeOpen c o ops, some (shapeDecPts s),
      shapeOps s) ss

theorem decode_shapes :
    ∀ (shapes : List ContourShape) (ts : List BezTok)
      (c : List (List DecPoint)) (o : Option (List DecPoint))
      (ops : List OpRec) (cx cy : ℚ) (oi : ℕ),
      ∃ cx2 cy2 oi2,
        decodeToks (pureSt c o ops cx cy oi)
          ((shapes.map shapeToks).flatten ++ ts) =
        decodeToks (pureSt (decodeShapeFold (c, o, ops) shapes).1
          (decodeShapeFold (c, o, ops) shapes).2.1
          (decodeShapeFold (c, o, ops) shapes).2.2 cx2 cy2 oi2) ts := by
  intro shapes
  induction shapes with
  | nil =>
    intro ts c o ops cx cy oi
    exact ⟨cx, cy, oi, by simp [decodeShapeFold]⟩
  | cons s ss ih =>
    intro ts c o ops cx cy oi
    obtain ⟨cx2, cy2, oi2, h1⟩ := decode_shape s
      ((ss.map shapeToks).flatten ++ ts) c o ops cx cy oi
    obtain ⟨cx3, cy3, oi3, h2⟩ := ih ts (finalizeOpen c o ops)
      (some (shapeDecPts s)) (shapeOps s) cx2 cy2 oi2
    refine ⟨cx3, cy3, oi3, ?_⟩
    rw [show ((s :: ss).map shapeToks).flatten ++ ts =
      shapeToks s ++ ((ss.map shapeToks).flatten ++ ts) from by simp]
    rw [h1, h2]
    rfl

/-- The decoded contour after `fixStartPoint`, made explicit per shape:
a curve start closes exactly on itself (the duplicated closing curve
point is dropped and the start regains kind curve); a line or move
start is retagged with the closing operator's kind — dropping the
duplicated closing point — when the last segment ends on the start
coordinate, and is retagged to kind line otherwise. -/
def shapeDecoded : ContourShape → List DecPoint
  | .startCurve x0 y0 segs a1 b1 a2 b2 =>
    ⟨x0, y0, .curve, none⟩ :: (segsDec segs ++
      [⟨a1, b1, .offcurve, none⟩, ⟨a2, b2, .offcurve, none⟩])
  | .startOn _ x0 y0 segs =>
    match (segs.map segOp).getLast? with
    | some (lk, lx, ly) =>
      if (x0 : ℚ) = lx ∧ (y0 : ℚ) = ly then
        (⟨x0, y0, lk, none⟩ :: segsDec segs).dropLast
      else ⟨x0, y0, .line, none⟩ :: segsDec segs
    | none => ⟨x0, y0, .line, none⟩ :: segsDec segs

theorem fixStartPoint_eval (first : DecPoint) (rest : List DecPoint)
    (ops : List OpRec) (k0 lastOp : PointType) (fx fy lx ly : ℚ)
    (hhead : ops.head? = some (k0, fx, fy))
    (hlast : ops.getLast? = some (lastOp, lx, ly)) :
    fixStartPoint (first :: rest) ops =
      if fx = lx ∧ fy = ly then
        ({ first with ptype := lastOp } :: rest).dropLast
      else { first with ptype := .line } :: rest := by
  unfold fixStartPoint
  rw [hhead, hlast]

theorem segsDec_concat (ss : List BodySeg) (b : BodySeg) :
    segsDec (ss ++ [b]) = segsDec ss ++ segDecPts b := by
  simp [segsDec]

theorem shapeFinal_eq (s : ContourShape) (hWF : s.WF) :
    fixStartPoint (shapeDecPts s) (shapeOps s) = shapeDecoded s := by
  cases s with
  | startCurve x0 y0 segs a1 b1 a2 b2 =>
    simp only [shapeDecPts, shapeOps, shapeDecoded]
    have hlast : ((((PointType.move, (x0 : ℚ), (y0 : ℚ)) : OpRec) ::
        (segs.map segOp ++
          [((PointType.curve, (x0 : ℚ), (y0 : ℚ)) : OpRec)]))).getLast? =
        some ((PointType.curve, (x0 : ℚ), (y0 : ℚ)) : OpRec) := by
      rw [← List.cons_append]
      exact List.getLast?_concat _
    have hops : ((((PointType.move, (x0 : ℚ), (y0 : ℚ)) : OpRec) ::
        (segs.map segOp ++
          [((PointType.curve, (x0 : ℚ), (y0 : ℚ)) : OpRec)]))).head? =
        some ((PointType.move, (x0 : ℚ), (y0 : ℚ)) : OpRec) := rfl
    rw [fixStartPoint_eval _ _ _ PointType.move PointType.curve
      (x0 : ℚ) (y0 : ℚ) (x0 : ℚ) (y0 : ℚ) hops hlast]
    rw [if_pos ⟨rfl, rfl⟩]
    rw [show ({ (⟨x0, y0, .move, none⟩ : DecPoint) with
        ptype := PointType.curve } ::
        (segsDec segs ++
          [⟨a1, b1, .offcurve, none⟩, ⟨a2, b2, .offcurve, none⟩,
           ⟨x0, y0, .curve, none⟩]) : List DecPoint) =
      ((⟨x0, y0, .curve, none⟩ : DecPoint) ::
        (segsDec segs ++
          [⟨a1, b1, .offcurve, none⟩, ⟨a2, b2, .offcurve, none⟩])) ++
        [⟨x0, y0, .curve, none⟩] from by simp]
    rw [List.dropLast_concat]
  | startOn k x0 y0 segs =>
    obtain ⟨hk, hne⟩ := hWF
    obtain ⟨ss, b, rfl⟩ : ∃ ss b, segs = ss ++ [b] := by
      rcases List.eq_nil_or_concat segs with h | ⟨ss, b, h⟩
      · exact absurd h hne
      · exact ⟨ss, b, by rw [h, List.concat_eq_append]⟩
    rcases hsop : segOp b with ⟨lk, lx, ly⟩
    have hmapb : List.map segOp [b] = [(lk, lx, ly)] := by
      rw [show List.map segOp [b] = [segOp b] from rfl, hsop]
    have hlast1 : ((ss ++ [b]).map segOp).getLast? = some (lk, lx, ly) := by
      rw [List.map_append, hmapb]
      exact List.getLast?_concat _
    have hlast : ((((PointType.move, (x0 : ℚ), (y0 : ℚ)) : OpRec) ::
        (ss ++ [b]).map segOp)).getLast? = some (lk, lx, ly) := by
      rw [List.map_append, hmapb, ← List.cons_append]
      exact List.getLast?_concat _
    simp only [shapeDecPts, shapeOps, shapeDecoded]
    have hops2 : ((((PointType.move, (x0 : ℚ), (y0 : ℚ)) : OpRec) ::
        (ss ++ [b]).map segOp)).head? =
        some ((PointType.move, (x0 : ℚ), (y0 : ℚ)) : OpRec) := rfl
    rw [fixStartPoint_eval _ _ _ PointType.move lk
      (x0 : ℚ) (y0 : ℚ) lx ly hops2 hlast]
    rw [hlast1]

theorem shapeDecPts_ne_one (s : ContourShape) (hWF : s.WF) :
    (shapeDecPts s).length ≠ 1 := by
  cases s with
  | startCurve x0 y0 segs a1 b1 a2 b2 =>
    simp [shapeDecPts]
  | startOn k x0 y0 segs =>
    obtain ⟨hk, hne⟩ := hWF
    obtain ⟨ss, b, rfl⟩ : ∃ ss b, segs = ss ++ [b] := by
      rcases List.eq_nil_or_concat segs with h | ⟨ss, b, h⟩
      · exact absurd h hne
      · exact ⟨ss, b, by rw [h, List.concat_eq_append]⟩
    have hlen : (segDecPts b).length ≠ 0 := by cases b <;> simp [segDecPts]
    simp only [shapeDecPts, segsDec_concat, List.length_cons,
      List.length_append]
    omega

theorem finalizeOpen_some (c : List (List DecPoint)) (pts : List DecPoint)
    (ops : List OpRec) (h : pts.length ≠ 1) :
    finalizeOpen c (some pts) ops = c ++ [fixStartPoint pts ops] := by
  simp [finalizeOpen, h]

theorem decodeShapeFold_final :
    ∀ (shapes : List ContourShape) (c : List (List DecPoint))
      (o : Option (List DecPoint)) (ops : List OpRec),
      (∀ s ∈ shapes, s.WF) →
      finalizeOpen (decodeShapeFold (c, o, ops) shapes).1
        (decodeShapeFold (c, o, ops) shapes).2.1
        (decodeShapeFold (c, o, ops) shapes).2.2 =
      finalizeOpen c o ops ++ shapes.map shapeDecoded := by
  intro shapes
  induction shapes with
  | nil =>
    intro c o ops _
    simp [decodeShapeFold]
  | cons s ss ih =>
    intro c o ops h
    have hs := h s (by simp)
    rw [show decodeShapeFold (c, o, ops) (s :: ss) =
      decodeShapeFold (finalizeOpen c o ops, some (shapeDecPts s),
        shapeOps s) ss from rfl]
    rw [ih _ _ _ (fun t ht => h t (by simp [ht]))]
    rw [finalizeOpen_some _ _ _ (shapeDecPts_ne_one s hs),
      shapeFinal_eq s hs]
    simp

theorem shapeToks_ne_nil (s : ContourShape) : shapeToks s ≠ [] := by
  cases s <;> simp [shapeToks]

theorem convertBez_shapes (shapes : List ContourShape)
    (hWF : ∀ s ∈ shapes, s.WF) (hne : shapes ≠ []) :
    convertBezToOutline ((shapes.map shapeToks).flatten) =
      .ok (.outline (shapes.map shapeDecoded) none) := by
  obtain ⟨s0, ss0, rfl⟩ : ∃ a l, shapes = a :: l := by
    cases shapes with
    | nil => exact absurd rfl hne
    | cons a l => exact ⟨a, l, rfl⟩
  obtain ⟨t0, ts0, htoks⟩ : ∃ t ts,
      (((s0 :: ss0).map shapeToks)).flatten = t :: ts := by
    cases hx : (((s0 :: ss0).map shapeToks)).flatten with
    | nil =>
      exfalso
      rw [List.map_cons, List.flatten_cons] at hx
      exact shapeToks_ne_nil s0 (List.append_eq_nil.mp hx).1
    | cons a l => exact ⟨a, l, rfl⟩
  obtain ⟨cx2, cy2, oi2, hdec⟩ := decode_shapes (s0 :: ss0) [] [] none []
    0 0 0
  simp only [List.append_nil] at hdec
  rw [htoks] at hdec
  rw [htoks]
  show (match decodeToks initDecState (t0 :: ts0) with
    | Except.error e => Except.error e
    | Except.ok st =>
      let contours := finalizeOpen st.closed st.openItem st.opList
      if st.seenHints ∨ st.flexList ≠ [] then
        match assembleHintSets st.hintMaskList with
        | Except.error e => Except.error e
        | Except.ok sets =>
          Except.ok (BezResult.outline contours
            (some { hintSets := sets, flexNames := st.flexList }))
      else Except.ok (BezResult.outline contours none)) =
    Except.ok (BezResult.outline ((s0 :: ss0).map shapeDecoded) none)
  rw [show initDecState = pureSt [] none [] 0 0 0 from rfl, hdec]
  rw [show decodeToks (pureSt (decodeShapeFold ([], none, [])
      (s0 :: ss0)).1 (decodeShapeFold ([], none, []) (s0 :: ss0)).2.1
      (decodeShapeFold ([], none, []) (s0 :: ss0)).2.2 cx2 cy2 oi2) [] =
    .ok (pureSt (decodeShapeFold ([], none, []) (s0 :: ss0)).1
      (decodeShapeFold ([], none, []) (s0 :: ss0)).2.1
      (decodeShapeFold ([], none, []) (s0 :: ss0)).2.2 cx2 cy2 oi2)
    from rfl]
  simp only [pureSt]
  rw [decodeShapeFold_final (s0 :: ss0) [] none [] hWF]
  simp [finalizeOpen]

/-- The on-curve points (kind, x, y) of a GLIF contour, in order. -/
def ptsOnCurve (pts : List Point) : List OpRec :=
  pts.filterMap (fun p =>
    if p.ptype = .offcurve then none else some (p.ptype, p.x, p.y))

/-- The on-curve points (kind, x, y) of a decoded contour, in order. -/
def decOnCurve (pts : List DecPoint) : List OpRec :=
  pts.filterMap (fun p =>
    if p.ptype = .offcurve then none else some (p.ptype, p.x, p.y))

/-- The on-curve sequence of the original contour of a shape. -/
def shapeOrigOnCurve : ContourShape → List OpRec
  | .startCurve x0 y0 segs _ _ _ _ =>
    ((PointType.curve, (x0 : ℚ), (y0 : ℚ)) : OpRec) :: segs.map segOp
  | .startOn k x0 y0 segs =>
    ((k, (x0 : ℚ), (y0 : ℚ)) : OpRec) :: segs.map segOp

/-- The decode direction's start-point normalization of a shape's
on-curve sequence: identical for a curve start; for a line or move
start the first kind is replaced by the closing operator's kind — and
the duplicated closing point dropped — when the last segment ends on
the start coordinate, else replaced by kind line. -/
def shapeNormOnCurve : ContourShape → List OpRec
  | .startCurve x0 y0 segs _ _ _ _ =>
    ((PointType.curve, (x0 : ℚ), (y0 : ℚ)) : OpRec) :: segs.map segOp
  | .startOn _ x0 y0 segs =>
    match (segs.map segOp).getLast? with
    | some (lk, lx, ly) =>
      if (x0 : ℚ) = lx ∧ (y0 : ℚ) = ly then
        (((lk, (x0 : ℚ), (y0 : ℚ)) : OpRec) :: segs.map segOp).dropLast
      else ((PointType.line, (x0 : ℚ), (y0 : ℚ)) : OpRec) :: segs.map segOp
    | none => [((PointType.line, (x0 : ℚ), (y0 : ℚ)) : OpRec)]

theorem ptsOnCurve_flatten (segs : List BodySeg) :
    ptsOnCurve ((segs.map segPts)).flatten = segs.map segOp := by
  induction segs with
  | nil => rfl
  | cons s ss ih =>
    cases s <;>
      simp [ptsOnCurve, segPts, segOp, List.filterMap_append] <;>
      simpa [ptsOnCurve] using ih

theorem decOnCurve_segsDec (segs : List BodySeg) :
    decOnCurve (segsDec segs) = segs.map segOp := by
  induction segs with
  | nil => rfl
  | cons s ss ih =>
    cases s <;>
      simp [decOnCurve, segsDec, segDecPts, segOp,
        List.filterMap_append] <;>
      simpa [decOnCurve, segsDec] using ih

theorem ptsOnCurve_shape (s : ContourShape) (hWF : s.WF) :
    ptsOnCurve (shapeContour s) = shapeOrigOnCurve s := by
  cases s with
  | startCurve x0 y0 segs a1 b1 a2 b2 =>
    simp only [shapeContour, shapeOrigOnCurve]
    have := ptsOnCurve_flatten segs
    simp [ptsOnCurve, List.filterMap_append] at this ⊢
    simp [this]
  | startOn k x0 y0 segs =>
    obtain ⟨hk, _⟩ := hWF
    have hkoff : ¬ (k = PointType.offcurve) := by
      rcases hk with hk | hk <;> simp [hk]
    simp only [shapeContour, shapeOrigOnCurve]
    have := ptsOnCurve_flatten segs
    simp [ptsOnCurve, hkoff] at this ⊢
    simp [this]

theorem decOnCurve_shapeDecoded (s : ContourShape) (hWF : s.WF) :
    decOnCurve (shapeDecoded s) = shapeNormOnCurve s := by
  cases s with
  | startCurve x0 y0 segs a1 b1 a2 b2 =>
    simp only [shapeDecoded, shapeNormOnCurve]
    have := decOnCurve_segsDec segs
    simp [decOnCurve, List.filterMap_append] at this ⊢
    simp [this]
  | startOn k x0 y0 segs =>
    obtain ⟨hk, hne⟩ := hWF
    obtain ⟨ss, b, rfl⟩ : ∃ ss b, segs = ss ++ [b] := by
      rcases List.eq_nil_or_concat segs with h | ⟨ss, b, h⟩
      · exact absurd h hne
      · exact ⟨ss, b, by rw [h, List.concat_eq_append]⟩
    rcases hsop : segOp b with ⟨lk, lx, ly⟩
    have hmapb : List.map segOp [b] = [((lk, lx, ly) : OpRec)] := by
      rw [show List.map segOp [b] = [segOp b] from rfl, hsop]
    have hlast1 : ((ss ++ [b]).map segOp).getLast? =
        some ((lk, lx, ly) : OpRec) := by
      rw [List.map_append, hmapb]
      exact List.getLast?_concat _
    simp only [shapeDecoded, shapeNormOnCurve, hlast1]
    by_cases hcond : (x0 : ℚ) = lx ∧ (y0 : ℚ) = ly
    · rw [if_pos hcond, if_pos hcond]
      rw [segsDec_concat]
      rw [show ((⟨x0, y0, lk, none⟩ : DecPoint) ::
          (segsDec ss ++ segDecPts b)) =
        ((⟨x0, y0, lk, none⟩ : DecPoint) :: segsDec ss) ++ segDecPts b
        from by simp]
      rw [List.map_append, hmapb]
      rw [show (((lk, (x0 : ℚ), (y0 : ℚ)) : OpRec) ::
          (List.map segOp ss ++ [((lk, lx, ly) : OpRec)])) =
        ((((lk, (x0 : ℚ), (y0 : ℚ)) : OpRec) :: List.map segOp ss) ++
          [((lk, lx, ly) : OpRec)]) from by simp]
      rw [List.dropLast_concat]
      cases b with
      | lineSeg bx by2 =>
        have hlk : lk = PointType.line := by
          simp [segOp] at hsop
          exact hsop.1.symm
        have hss := decOnCurve_segsDec ss
        simp only [decOnCurve] at hss
        rw [show segDecPts (BodySeg.lineSeg bx by2) =
            [(⟨(bx : ℚ), (by2 : ℚ), PointType.line, none⟩ : DecPoint)]
          from rfl]
        rw [List.dropLast_concat]
        simp [decOnCurve, hlk, hss]
      | curveSeg c1 c2 c3 c4 c5 c6 =>
        have hlk : lk = PointType.curve := by
          simp [segOp] at hsop
          exact hsop.1.symm
        have hss := decOnCurve_segsDec ss
        simp only [decOnCurve] at hss
        rw [show segDecPts (BodySeg.curveSeg c1 c2 c3 c4 c5 c6) =
            ([(⟨(c1 : ℚ), (c2 : ℚ), PointType.offcurve, none⟩ : DecPoint),
              (⟨(c3 : ℚ), (c4 : ℚ), PointType.offcurve, none⟩ : DecPoint)] ++
             [(⟨(c5 : ℚ), (c6 : ℚ), PointType.curve, none⟩ : DecPoint)])
          from rfl]
        rw [← List.append_assoc]
        rw [List.dropLast_concat]
        simp [decOnCurve, List.filterMap_append, hlk, hss]
    · rw [if_neg hcond, if_neg hcond]
      have := decOnCurve_segsDec (ss ++ [b])
      simp [decOnCurve] at this ⊢
      simp [this]

/-- A two-shape sample glyph: a curve-start contour and a move-start
contour whose last segment returns to the start point (so the decode
close normalization drops the duplicated close point). -/
def c1s1 : ContourShape :=
  .startCurve 0 0 [.lineSeg 10 0] 10 10 0 10

def c1s2 : ContourShape :=
  .startOn .move 5 5 [.lineSeg 6 5, .lineSeg 5 5]

/-- C1: the round trip holds on well-formed contour shapes — contours
that either start with a curve point and end with the two closing
off-curve control points, or start with a line/move point followed by
at least one line or curve segment (no mid-contour move points, no
components). Encoding such a non-empty contour list succeeds, decoding
the resulting token stream succeeds with one decoded contour per input
contour, and each decoded contour's on-curve (kind, x, y) sequence is
exactly the decode-direction start-point normalization
(`shapeNormOnCurve`) of the original contour's on-curve sequence
(`shapeOrigOnCurve`): identical for a curve start; for a line/move
start the first kind becomes the closing operator's kind with the
duplicated close point dropped when the contour ends on its start
coordinate, else the first kind becomes line. On general contours the
claim fails: see the counterexample, where a mid-contour move point
makes the encoder emit a second move-to, so the decoder starts the
contour there and the original start point vanishes entirely — beyond
the claim's start-point normalization proviso. -/
theorem C1_roundTrip (resolve : Resolver) (shapes : List ContourShape)
    (hWF : ∀ s ∈ shapes, s.WF) (hne : shapes ≠ []) :
    convertGlyphOutlineToBezString resolve false
        (some (shapes.map (fun s => OutlineElem.contour (shapeContour s))))
        none 0 = .ok ((shapes.map shapeToks).flatten) ∧
    convertBezToOutline ((shapes.map shapeToks).flatten) =
      .ok (.outline (shapes.map shapeDecoded) none) ∧
    ∀ s ∈ shapes,
      ptsOnCurve (shapeContour s) = shapeOrigOnCurve s ∧
      decOnCurve (shapeDecoded s) = shapeNormOnCurve s := by
  refine ⟨encodeShapes resolve shapes hWF,
    convertBez_shapes shapes hWF hne, ?_⟩
  intro s hs
  exact ⟨ptsOnCurve_shape s (hWF s hs),
    decOnCurve_shapeDecoded s (hWF s hs)⟩

/-- C1 counterexample: the contour [line (0,0); move (1,1); line (2,2)]
has three points and no components, encodes without error, yet decodes
to a contour whose on-curve sequence has lost the start point (0,0)
altogether — the decoder's second move-to restarts the contour — which
is not covered by the start-point normalization the claim allows. -/
theorem C1_counterexample :
    convertGlyphOutlineToBezString (fun _ => Except.ok none) false
        (some [OutlineElem.contour
          [⟨0, 0, PointType.line⟩, ⟨1, 1, PointType.move⟩,
           ⟨2, 2, PointType.line⟩]]) none 0 =
      .ok [.num 0, .num 0, .op "mt", .num 1, .num 1, .op "mt",
           .num 2, .num 2, .op "dt", .op "cp"] ∧
    convertBezToOutline
        [.num 0, .num 0, .op "mt", .num 1, .num 1, .op "mt",
         .num 2, .num 2, .op "dt", .op "cp"] =
      .ok (.outline [[⟨1, 1, PointType.line, none⟩,
        ⟨2, 2, PointType.line, none⟩]] none) ∧
    ptsOnCurve [⟨0, 0, PointType.line⟩, ⟨1, 1, PointType.move⟩,
        ⟨2, 2, PointType.line⟩] =
      [(PointType.line, 0, 0), (PointType.move, 1, 1),
       (PointType.line, 2, 2)] ∧
    decOnCurve [⟨1, 1, PointType.line, none⟩,
        ⟨2, 2, PointType.line, none⟩] =
      [(PointType.line, 1, 1), (PointType.line, 2, 2)] := by
  decide

/-- C1 witness: the round-trip theorem applied to the concrete
two-shape glyph [c1s1, c1s2]. -/
theorem C1_witness :
    ContourShape.WF c1s1 ∧ ContourShape.WF c1s2 ∧
    convertGlyphOutlineToBezString (fun _ => Except.ok none) false
        (some ([c1s1, c1s2].map
          (fun s => OutlineElem.contour (shapeContour s)))) none 0 =
      .ok (([c1s1, c1s2].map shapeToks).flatten) ∧
    convertBezToOutline (([c1s1, c1s2].map shapeToks).flatten) =
      .ok (.outline ([c1s1, c1s2].map shapeDecoded) none) ∧
    ptsOnCurve (shapeContour c1s2) = shapeOrigOnCurve c1s2 ∧
    decOnCurve (shapeDecoded c1s2) = shapeNormOnCurve c1s2 := by
  have h := C1_roundTrip (fun _ => Except.ok none) [c1s1, c1s2]
    (by simp [ContourShape.WF, c1s1, c1s2]) (by simp)
  exact ⟨by simp [ContourShape.WF, c1s1],
    by simp [ContourShape.WF, c1s2], h.1, h.2.1,
    (h.2.2 c1s2 (by simp)).1, (h.2.2 c1s2 (by simp)).2⟩

end UFO